import Mathlib

/-! infrakit-vmware-fusion: the instance lifecycle manager.

A shallow embedding of `plugin.go` and `vix.go` (package `fusion`) together
with the properties of Provision, Destroy, DescribeInstances and
GetVMXFilePath that are stated in the design document.

Layout: first the library boundary (path handling, JSON documents, the
hypervisor capability), then the functions of the package, then the
theorems.
-/

set_option autoImplicit false

namespace fusion

/-! ## Go `path/filepath` on a Unix host (separator `/`) -/

namespace filepath

/-- The path elements between separators: `a//b` has elements `a`, empty, `b`. -/
def splitSep : List Char → List (List Char)
  | [] => [[]]
  | c :: cs =>
    if c = '/' then [] :: splitSep cs
    else
      match splitSep cs with
      | [] => [[c]]
      | h :: t => (c :: h) :: t

/-- Elements written back with one separator between neighbours. -/
def joinSep : List (List Char) → List Char
  | [] => []
  | [x] => x
  | x :: y :: rest => x ++ '/' :: joinSep (y :: rest)

/-- One element of the scan of `Clean`. The stack holds the kept elements,
last element first. Empty and `.` elements are dropped; `..` removes the
preceding non-`..` element, is dropped at the root, and is kept otherwise. -/
def cleanStep (rooted : Bool) (stack : List (List Char)) (elem : List Char) :
    List (List Char) :=
  if elem = [] ∨ elem = ['.'] then stack
  else if elem = ['.', '.'] then
    match stack with
    | top :: rest => if top = ['.', '.'] then elem :: stack else rest
    | [] => if rooted then [] else [elem]
  else elem :: stack

/-- The output buffer of `Clean`: root separator, then the kept elements;
an empty buffer is returned as `.`. -/
def render (rooted : Bool) (stack : List (List Char)) : List Char :=
  let out := (if rooted then ['/'] else []) ++ joinSep stack.reverse
  if out = [] then ['.'] else out

/-- Whether the path starts at the root. -/
def isRooted : List Char → Bool
  | c :: _ => c = '/'
  | [] => false

/-- `Clean` on the characters of a path. -/
def cleanChars (path : List Char) : List Char :=
  render (isRooted path) ((splitSep path).foldl (cleanStep (isRooted path)) [])

/-- Go `filepath.Clean`: the shortest path name equivalent to `path` by
purely lexical processing. -/
def Clean (path : String) : String := ⟨cleanChars path.data⟩

/-- Go `strings.Join(elem, "/")`. -/
def joinStrings : List String → String
  | [] => ""
  | [x] => x
  | x :: y :: rest => x ++ "/" ++ joinStrings (y :: rest)

/-- Go `filepath.Join`: leading empty elements are ignored, the rest are
joined with the separator and the result is cleaned; all empty gives "". -/
def Join : List String → String
  | [] => ""
  | e :: rest => if e = "" then Join rest else Clean (joinStrings (e :: rest))

/-- Go `filepath.Dir`: all but the last element of the path, cleaned. -/
def Dir (path : String) : String :=
  Clean ⟨(path.data.reverse.dropWhile (fun c => c != '/')).reverse⟩

end filepath

/-- GetVMXFilePath returns the full path to the VMX file. -/
def GetVMXFilePath (vmLib vmx : String) : String :=
  filepath.Join [vmLib, filepath.Join [vmx ++ ".vmwarevm", vmx ++ ".vmx"]]

/-! ## Go maps and `encoding/json` documents -/

/-- A Go `map[string]string` as its entries; the nil map is the empty list. -/
abbrev GoMap := List (String × String)

/-- The two-value index `v, ok := m[k]`. -/
def GoMap.lookup (m : GoMap) (k : String) : Option String :=
  match m.find? (fun e => e.1 == k) with
  | some e => some e.2
  | none => none

/-- Indexing `m[k]`: the stored value, or the zero value "" for an absent key. -/
def GoMap.get (m : GoMap) (k : String) : String :=
  match m.lookup k with
  | some v => v
  | none => ""

/-- The assignment `m[k] = v`. -/
def GoMap.set (m : GoMap) (k v : String) : GoMap :=
  (k, v) :: m.filter (fun e => e.1 != k)

/-- A JSON value as the scanner of `encoding/json` sees it. A number keeps
its literal text, an object keeps its members in document order. -/
inductive JValue where
  | null
  | bool (b : Bool)
  | num (lit : String)
  | str (s : String)
  | arr (items : List JValue)
  | obj (members : List (String × JValue))

/-- The bytes of a `json.RawMessage`: either they are not a JSON text, or
they are the text of one value. -/
inductive RawMessage where
  | malformed
  | document (v : JValue)

/-- Go `strconv.ParseUint(lit, 10, 64)`: decimal digits only, below 2^64. -/
def parseUint (lit : String) : Option Nat :=
  if lit.data ≠ [] ∧ lit.data.all Char.isDigit then
    let n := lit.data.foldl (fun acc c => 10 * acc + (c.toNat - '0'.toNat)) 0
    if n < 2 ^ 64 then some n else none
  else none

/-! ## `plugin.go`: the creation request -/

/-- CreateInstanceRequest is the concrete provision request type. -/
structure CreateInstanceRequest where
  Tags : GoMap := []
  VMX : String := ""
  MemorySizeMBs : Nat := 0
  NumCPUs : Nat := 0
  LaunchGUI : Bool := false
  deriving DecidableEq, Repr

/-- DefaultCreateInstanceRequest is a minimal instance request. -/
def DefaultCreateInstanceRequest : CreateInstanceRequest :=
  { MemorySizeMBs := 512, NumCPUs := 1, LaunchGUI := false }

/-- The exported fields of CreateInstanceRequest, in declaration order. -/
inductive Field where
  | Tags | VMX | MemorySizeMBs | NumCPUs | LaunchGUI
  deriving DecidableEq, Repr

/-- The JSON name of a field (no struct tags: the Go field name). -/
def Field.name : Field → String
  | .Tags => "Tags"
  | .VMX => "VMX"
  | .MemorySizeMBs => "MemorySizeMBs"
  | .NumCPUs => "NumCPUs"
  | .LaunchGUI => "LaunchGUI"

/-- Whether the field name holds a `k` or `s`, whose case folding reaches
the Kelvin sign and the long s. -/
def Field.special : Field → Bool
  | .Tags | .MemorySizeMBs | .NumCPUs => true
  | .VMX | .LaunchGUI => false

/-- Case folding of one character of a field name (a letter) against one
character of a key. -/
def equalFoldChar (special : Bool) (sc tc : Char) : Bool :=
  if tc.toNat < 128 then
    sc == tc || (sc.isAlpha && sc.toUpper == tc.toUpper)
  else
    special && ((sc.toUpper == 'S' && tc.toNat == 0x17F)
      || (sc.toUpper == 'K' && tc.toNat == 0x212A))

/-- Case-insensitive match of a field name with a key. -/
def equalFoldChars (special : Bool) : List Char → List Char → Bool
  | [], [] => true
  | sc :: s, tc :: t => equalFoldChar special sc tc && equalFoldChars special s t
  | _, _ => false

/-- The fold function of a field applied to a key. -/
def Field.equalFold (f : Field) (key : String) : Bool :=
  equalFoldChars f.special f.name.data key.data

/-- The field scan of the object decoder: an exact name match wins and ends
the scan, otherwise the first case-insensitive match is taken. -/
def findFieldFrom (key : String) : List Field → Option Field → Option Field
  | [], f => f
  | ff :: rest, f =>
    if ff.name = key then some ff
    else if f.isNone && ff.equalFold key then findFieldFrom key rest (some ff)
    else findFieldFrom key rest f

/-- The field of CreateInstanceRequest that a key is stored into, if any. -/
def findField (key : String) : Option Field :=
  findFieldFrom key [.Tags, .VMX, .MemorySizeMBs, .NumCPUs, .LaunchGUI] none

/-- Members of a JSON object decoded into a `map[string]string`: a string is
stored, `null` stores the zero value, anything else is a type error. -/
def decodeTags : List (String × JValue) → GoMap → Except String GoMap
  | [], m => .ok m
  | (k, .str v) :: rest, m => decodeTags rest (m.set k v)
  | (k, .null) :: rest, m => decodeTags rest (m.set k "")
  | _ :: _, _ => .error "json: cannot unmarshal value into Go value of type string"

/-- One value stored into one field. `null` leaves the field as it is. -/
def setField (f : Field) (v : JValue) (r : CreateInstanceRequest) :
    Except String CreateInstanceRequest :=
  match f, v with
  | _, .null => .ok r
  | .Tags, .obj members =>
    match decodeTags members r.Tags with
    | .ok m => .ok { r with Tags := m }
    | .error e => .error e
  | .VMX, .str s => .ok { r with VMX := s }
  | .MemorySizeMBs, .num lit =>
    match parseUint lit with
    | some n => .ok { r with MemorySizeMBs := n }
    | none => .error "json: cannot unmarshal number into Go value of type uint"
  | .NumCPUs, .num lit =>
    match parseUint lit with
    | some n => .ok { r with NumCPUs := n }
    | none => .error "json: cannot unmarshal number into Go value of type uint"
  | .LaunchGUI, .bool b => .ok { r with LaunchGUI := b }
  | _, _ => .error "json: cannot unmarshal value into Go struct field"

/-- The members of an object stored into the request, in document order;
keys that match no field are skipped. -/
def decodeObject : List (String × JValue) → CreateInstanceRequest →
    Except String CreateInstanceRequest
  | [], r => .ok r
  | (k, v) :: rest, r =>
    match findField k with
    | none => decodeObject rest r
    | some f =>
      match setField f v r with
      | .ok r1 => decodeObject rest r1
      | .error e => .error e

/-- Go `json.Unmarshal(data, &v)` for a CreateInstanceRequest `v`: the text
must be valid, `null` changes nothing, an object fills the fields it names,
any other value is a type error. -/
def Unmarshal (data : RawMessage) (v : CreateInstanceRequest) :
    Except String CreateInstanceRequest :=
  match data with
  | .malformed => .error "invalid character looking for beginning of value"
  | .document .null => .ok v
  | .document (.obj members) => decodeObject members v
  | .document _ => .error "json: cannot unmarshal value into Go value of type fusion.CreateInstanceRequest"

/-- Whether the document is an object with a member that the decoder stores
into field `f`. -/
def RawMessage.hasKey (data : RawMessage) (f : Field) : Bool :=
  match data with
  | .document (.obj members) => members.any (fun m => decide (findField m.1 = some f))
  | _ => false

/-! ## The instance SPI and the hypervisor boundary -/

/-- Modelled from the spec: `instance.Spec` of the infrakit SPI, whose
declaration is outside this package: the envelope of tags, logical id, init
script and opaque properties. -/
structure Spec where
  Properties : Option RawMessage := none
  Tags : GoMap := []
  Init : String := ""
  LogicalID : Option String := none

/-- Modelled from the spec: `instance.Description` of the infrakit SPI. -/
structure Description where
  ID : String
  LogicalID : Option String
  Tags : GoMap
  deriving DecidableEq, Repr

/-- A `*vix.VM` handle. -/
abbrev VM := Nat

/-- The constants of the VIX binding that the package uses. -/
def VMPOWEROP_NORMAL : Nat := 0
def VMPOWEROP_FROM_GUEST : Nat := 0x0004
def VMPOWEROP_LAUNCH_GUI : Nat := 0x0200
def POWERSTATE_POWERED_OFF : Nat := 0x0002
def POWERSTATE_POWERED_ON : Nat := 0x0008
def TOOLSSTATE_RUNNING : Nat := 0x0002
def CLONETYPE_FULL : Nat := 0

/-- The calls that leave the package, as observed in program order. -/
inductive Event where
  | findItems (ok : Bool)
  | openVM (path : String) (ok : Bool)
  | mkdirAll (path : String)
  | clone (src : VM) (cloneType : Nat) (dest : String) (result : Option VM)
  | writeFile (path : String) (data : String) (ok : Bool)
  | readFile (path : String) (ok : Bool)
  | setDisplayName (vm : VM) (name : String)
  | setMemorySize (vm : VM) (mb : Nat)
  | setNumberVcpus (vm : VM) (n : Nat)
  | powerOn (vm : VM) (mode : Nat) (ok : Bool)
  | powerOff (vm : VM) (mode : Nat) (ok : Bool)
  | isRunning (vm : VM) (result : Option Bool)
  | powerState (vm : VM) (result : Option Nat)
  | toolsState (vm : VM) (result : Option Nat)
  | displayName (vm : VM) (ok : Bool)
  | vmxPath (vm : VM) (ok : Bool)
  | cleanup (path : String)
  deriving DecidableEq, Repr

/-- The methods of a connected `*vix.Host`, over a world state `σ`. -/
structure Host (σ : Type) where
  FindItems : σ → Except String (List String) × σ
  OpenVM : String → σ → Except String VM × σ

/-- Everything else the package calls: the methods of `*vix.VM`, the
filesystem, the clock, and the JSON coding of `instance.Spec`. Every call
may answer anything and may change the world. Setters return an error that
every caller discards, so only their effect on the world is kept. -/
structure World (σ : Type) where
  Clone : VM → Nat → String → σ → Except String VM × σ
  DisplayName : VM → σ → Except String String × σ
  VmxPath : VM → σ → Except String String × σ
  SetDisplayName : VM → String → σ → σ
  SetMemorySize : VM → Nat → σ → σ
  SetNumberVcpus : VM → Nat → σ → σ
  PowerOn : VM → Nat → σ → Option String × σ
  PowerOff : VM → Nat → σ → Option String × σ
  IsRunning : VM → σ → Except String Bool × σ
  PowerState : VM → σ → Except String Nat × σ
  ToolsState : VM → σ → Except String Nat × σ
  MkdirAll : String → σ → σ
  WriteFile : String → String → σ → Option String × σ
  ReadFile : String → σ → Except String String × σ
  Now : σ → Int
  MarshalSpec : Spec → Except String String
  UnmarshalSpec : String → Except String Spec

/-- Provisioner is what manages the VMs. `Host` may be nil. -/
structure Provisioner (σ : Type) where
  Host : Option (Host σ)
  VMLib : String
  VMDir : String

/-- How a call ends: it returns, it is still in a polling loop when the
poll budget is used up, or it stops on a nil dereference. -/
inductive Outcome (α : Type) where
  | returned (a : α)
  | waiting
  | panicked
  deriving DecidableEq, Repr

/-- The value a call returns, rewritten by its caller. -/
def Outcome.map {α β : Type} (f : α → β) : Outcome α → Outcome β
  | .returned a => .returned (f a)
  | .waiting => .waiting
  | .panicked => .panicked

/-- The result of running a function: its outcome, the world afterwards and
the calls it made. -/
structure Run (σ α : Type) where
  out : α
  state : σ
  trace : List Event

/-! ## `vix.go` -/

/-- The loop of findRunning over the enumerated URLs: a VM that does not
open is skipped, one that the matcher accepts is appended. `acc` is the
variable the matcher closure captures. -/
def findRunningLoop {σ α : Type} (host : Host σ)
    (matcher : VM → α → σ → Run σ (Bool × α)) :
    List String → List VM → α → σ → Run σ (List VM × α)
  | [], found, acc, s => ⟨(found, acc), s, []⟩
  | url :: urls, found, acc, s =>
    match host.OpenVM url s with
    | (.error _, s1) =>
      let r := findRunningLoop host matcher urls found acc s1
      ⟨r.out, r.state, .openVM url false :: r.trace⟩
    | (.ok vm, s1) =>
      let m := matcher vm acc s1
      let r := findRunningLoop host matcher urls
        (if m.out.1 then found ++ [vm] else found) m.out.2 m.state
      ⟨r.out, r.state, .openVM url true :: (m.trace ++ r.trace)⟩

/-- The method findRunning: the matching running VMs and an error. -/
def findRunning {σ α : Type} (p : Provisioner σ)
    (matcher : VM → α → σ → Run σ (Bool × α)) (acc : α) (s : σ) :
    Run σ ((List VM × Option String) × α) :=
  match p.Host with
  | none => ⟨(([], none), acc), s, []⟩
  | some host =>
    match host.FindItems s with
    | (.error err, s1) => ⟨(([], some err), acc), s1, [.findItems false]⟩
    | (.ok urls, s1) =>
      let r := findRunningLoop host matcher urls [] acc s1
      ⟨((r.out.1, none), r.out.2), r.state, .findItems true :: r.trace⟩

/-- A polling loop on `IsRunning`, one query per tick: a query error is
returned, the loop is left when `stop` holds of the answer. `returned none`
stands for leaving the loop. -/
def pollRunning {σ : Type} (w : World σ) (vm : VM) (stop : Bool → Bool) :
    Nat → σ → Run σ (Outcome (Option String))
  | 0, s => ⟨.waiting, s, []⟩
  | fuel + 1, s =>
    match w.IsRunning vm s with
    | (.error err, s1) => ⟨.returned (some err), s1, [.isRunning vm none]⟩
    | (.ok running, s1) =>
      if stop running then ⟨.returned none, s1, [.isRunning vm (some running)]⟩
      else
        let r := pollRunning w vm stop fuel s1
        ⟨r.out, r.state, .isRunning vm (some running) :: r.trace⟩

/-- A polling loop on `PowerState`, left when `state & bit > 0`. -/
def pollPowerState {σ : Type} (w : World σ) (vm : VM) (bit : Nat) :
    Nat → σ → Run σ (Outcome (Option String))
  | 0, s => ⟨.waiting, s, []⟩
  | fuel + 1, s =>
    match w.PowerState vm s with
    | (.error err, s1) => ⟨.returned (some err), s1, [.powerState vm none]⟩
    | (.ok state, s1) =>
      if state &&& bit > 0 then ⟨.returned none, s1, [.powerState vm (some state)]⟩
      else
        let r := pollPowerState w vm bit fuel s1
        ⟨r.out, r.state, .powerState vm (some state) :: r.trace⟩

/-- The two polling loops one after the other. -/
def pollBoth {σ : Type} (w : World σ) (vm : VM) (stop : Bool → Bool) (bit : Nat)
    (fuel : Nat) (s : σ) : Run σ (Outcome (Option String)) :=
  let r1 := pollRunning w vm stop fuel s
  match r1.out with
  | .returned none =>
    let r2 := pollPowerState w vm bit fuel r1.state
    ⟨r2.out, r2.state, r1.trace ++ r2.trace⟩
  | other => ⟨other, r1.state, r1.trace⟩

/-- The configuration of vmStart: the defaults, overwritten by the
properties when they are set. -/
def startConfig (spec : Spec) : Except String CreateInstanceRequest :=
  match spec.Properties with
  | none => .ok DefaultCreateInstanceRequest
  | some props => Unmarshal props DefaultCreateInstanceRequest

/-- The power-on mode of a configuration. -/
def startMode (config : CreateInstanceRequest) : Nat :=
  if config.LaunchGUI then VMPOWEROP_LAUNCH_GUI else VMPOWEROP_NORMAL

/-- The function vmStart: write the sidecar, configure, power on, poll. -/
def vmStart {σ : Type} (w : World σ) (path : String) (vm : VM) (id : String)
    (spec : Spec) (fuel : Nat) (s : σ) : Run σ (Outcome (Option String)) :=
  match w.MarshalSpec spec with
  | .error err => ⟨.returned (some err), s, []⟩
  | .ok buff =>
    let p := filepath.Join [filepath.Dir path, "infrakit.spec"]
    match w.WriteFile p buff s with
    | (some err, s1) => ⟨.returned (some err), s1, [.writeFile p buff false]⟩
    | (none, s1) =>
      let s2 := w.SetDisplayName vm id s1
      match startConfig spec with
      | .error err =>
        ⟨.returned (some err), s2, [.writeFile p buff true, .setDisplayName vm id]⟩
      | .ok config =>
        let s3 := w.SetMemorySize vm config.MemorySizeMBs s2
        let s4 := w.SetNumberVcpus vm config.NumCPUs s3
        let mode := startMode config
        let pre := [Event.writeFile p buff true, .setDisplayName vm id,
          .setMemorySize vm config.MemorySizeMBs, .setNumberVcpus vm config.NumCPUs]
        match w.PowerOn vm mode s4 with
        | (some err, s5) => ⟨.returned (some err), s5, pre ++ [.powerOn vm mode false]⟩
        | (none, s5) =>
          let r := pollBoth w vm (fun running => running) POWERSTATE_POWERED_ON fuel s5
          ⟨r.out, r.state, pre ++ .powerOn vm mode true :: r.trace⟩

/-- The function vmStop: power off (from the guest when the tools run),
hand the definition path to the cleanup queue, poll. -/
def vmStop {σ : Type} (w : World σ) (vm : VM) (fuel : Nat) (s : σ) :
    Run σ (Outcome (Option String)) :=
  let t := w.ToolsState vm s
  let powerOff :=
    match t.1 with
    | .ok state => if state = TOOLSSTATE_RUNNING then VMPOWEROP_FROM_GUEST else VMPOWEROP_NORMAL
    | .error _ => VMPOWEROP_NORMAL
  let tools := Event.toolsState vm (match t.1 with | .ok state => some state | .error _ => none)
  match w.PowerOff vm powerOff t.2 with
  | (some err, s2) => ⟨.returned (some err), s2, [tools, .powerOff vm powerOff false]⟩
  | (none, s2) =>
    match w.VmxPath vm s2 with
    | (.error err, s3) =>
      ⟨.returned (some err), s3, [tools, .powerOff vm powerOff true, .vmxPath vm false]⟩
    | (.ok vmxPath, s3) =>
      let r := pollBoth w vm (fun running => !running) POWERSTATE_POWERED_OFF fuel s3
      ⟨r.out, r.state,
        [tools, .powerOff vm powerOff true, .vmxPath vm true, .cleanup vmxPath] ++ r.trace⟩

/-! ## `plugin.go` -/

/-- Validate performs local checks to determine if the request is valid. -/
def Validate (req : RawMessage) : Option String :=
  match Unmarshal req DefaultCreateInstanceRequest with
  | .error err => some err
  | .ok _ => none

/-- Provision creates a new instance. The result is the pair of the
returned identity pointer and the returned error. -/
def Provision {σ : Type} (w : World σ) (p : Provisioner σ) (spec : Spec) (fuel : Nat)
    (s : σ) : Run σ (Outcome (Option String × Option String)) :=
  match spec.Properties with
  | none => ⟨.returned (none, some "Properties must be set"), s, []⟩
  | some props =>
    match Unmarshal props {} with
    | .error err => ⟨.returned (none, some ("Invalid input formatting: " ++ err)), s, []⟩
    | .ok request =>
      let vmxPath := GetVMXFilePath p.VMLib request.VMX
      match p.Host with
      | none => ⟨.panicked, s, []⟩
      | some host =>
        match host.OpenVM vmxPath s with
        | (.error err, s1) => ⟨.returned (none, some err), s1, [.openVM vmxPath false]⟩
        | (.ok sourceVM, s1) =>
          let name := "instance-" ++ toString (w.Now s1)
          let dir := filepath.Join [p.VMDir, name]
          let s2 := w.MkdirAll dir s1
          let path := filepath.Join [dir, name ++ ".vmx"]
          let pre := [Event.openVM vmxPath true, .mkdirAll dir]
          match w.Clone sourceVM CLONETYPE_FULL path s2 with
          | (.error err, s3) =>
            ⟨.returned (none, some err), s3,
              pre ++ [.clone sourceVM CLONETYPE_FULL path none]⟩
          | (.ok clone, s3) =>
            let r := vmStart w path clone name spec fuel s3
            ⟨r.out.map (fun err => (some name, err)), r.state,
              pre ++ .clone sourceVM CLONETYPE_FULL path (some clone) :: r.trace⟩

/-- The matcher of Destroy: the display name reads and equals the id. -/
def destroyMatcher {σ : Type} (w : World σ) (id : String) (vm : VM) (acc : Unit) (s : σ) :
    Run σ (Bool × Unit) :=
  match w.DisplayName vm s with
  | (.ok d, s1) => ⟨(d = id, acc), s1, [.displayName vm true]⟩
  | (.error _, s1) => ⟨(false, acc), s1, [.displayName vm false]⟩

/-- The loop of Destroy over the matches: a failed stop is logged and the
loop goes on. -/
def destroyLoop {σ : Type} (w : World σ) (fuel : Nat) :
    List VM → σ → Run σ (Outcome Unit)
  | [], s => ⟨.returned (), s, []⟩
  | vm :: rest, s =>
    let r := vmStop w vm fuel s
    match r.out with
    | .returned _ =>
      let r2 := destroyLoop w fuel rest r.state
      ⟨r2.out, r2.state, r.trace ++ r2.trace⟩
    | .waiting => ⟨.waiting, r.state, r.trace⟩
    | .panicked => ⟨.panicked, r.state, r.trace⟩

/-- Destroy terminates an existing instance. The result is the returned
error. -/
def Destroy {σ : Type} (w : World σ) (p : Provisioner σ) (id : String) (fuel : Nat)
    (s : σ) : Run σ (Outcome (Option String)) :=
  let f := findRunning p (destroyMatcher w id) () s
  match f.out.1.2 with
  | some err => ⟨.returned (some err), f.state, f.trace⟩
  | none =>
    if f.out.1.1.length = 0 then ⟨.returned none, f.state, f.trace⟩
    else
      let r := destroyLoop w fuel f.out.1.1 f.state
      ⟨r.out.map (fun _ => none), r.state, f.trace ++ r.trace⟩

/-- The loop of DescribeInstances over the tags of the sidecar, left at the
first key whose value equals the filter's entry for that key. -/
def tagsMatch (tags : GoMap) : List (String × String) → Bool
  | [] => false
  | (k, v) :: rest => if tags.get k = v then true else tagsMatch tags rest

/-- The matcher of DescribeInstances; `result` is the captured slice. -/
def describeMatcher {σ : Type} (w : World σ) (tags : GoMap) (vm : VM)
    (result : List Description) (s : σ) : Run σ (Bool × List Description) :=
  match w.DisplayName vm s with
  | (.error _, s1) => ⟨(false, result), s1, [.displayName vm false]⟩
  | (.ok displayName, s1) =>
    match w.VmxPath vm s1 with
    | (.error _, s2) => ⟨(false, result), s2, [.displayName vm true, .vmxPath vm false]⟩
    | (.ok vmxpath, s2) =>
      let specPath := filepath.Join [filepath.Dir vmxpath, "infrakit.spec"]
      match w.ReadFile specPath s2 with
      | (.error _, s3) =>
        ⟨(false, result), s3,
          [.displayName vm true, .vmxPath vm true, .readFile specPath false]⟩
      | (.ok buff, s3) =>
        let tr := [Event.displayName vm true, .vmxPath vm true, .readFile specPath true]
        match w.UnmarshalSpec buff with
        | .error _ => ⟨(false, result), s3, tr⟩
        | .ok spec =>
          let isMatch := if tags.length = 0 then true else tagsMatch tags spec.Tags
          if isMatch then
            ⟨(true, result ++ [{ ID := displayName, LogicalID := spec.LogicalID,
                                  Tags := spec.Tags }]), s3, tr⟩
          else ⟨(false, result), s3, tr⟩

/-- DescribeInstances implements instance.Provisioner.DescribeInstances.
The result is the returned slice and the returned error. -/
def DescribeInstances {σ : Type} (w : World σ) (p : Provisioner σ) (tags : GoMap)
    (s : σ) : Run σ (List Description × Option String) :=
  let f := findRunning p (describeMatcher w tags) [] s
  ⟨(f.out.2, f.out.1.2), f.state, f.trace⟩

/-! ## The discovery path in the words of the design document -/

/-- The description of the VM behind `url` in the world state `s`, following
the design document: the VM opens, its display name and its definition path
can be queried, and the `infrakit.spec` file next to the definition reads and
parses; the description carries the display name and the logical id and
tags of the sidecar. -/
def describeAt {σ : Type} (w : World σ) (host : Host σ) (s : σ) (url : String) :
    Option Description :=
  match (host.OpenVM url s).1 with
  | .error _ => none
  | .ok vm =>
    match (w.DisplayName vm s).1, (w.VmxPath vm s).1 with
    | .ok name, .ok vmxpath =>
      match (w.ReadFile (filepath.Join [filepath.Dir vmxpath, "infrakit.spec"]) s).1 with
      | .error _ => none
      | .ok buff =>
        match w.UnmarshalSpec buff with
        | .error _ => none
        | .ok spec => some { ID := name, LogicalID := spec.LogicalID, Tags := spec.Tags }
    | _, _ => none

/-! ## Reading a trace -/

/-- The answer carried by a running-state query. -/
def Event.runningResult : Event → Option (Option Bool)
  | .isRunning _ r => some r
  | _ => none

/-- The answer carried by a power-state query. -/
def Event.powerStateResult : Event → Option (Option Nat)
  | .powerState _ r => some r
  | _ => none

/-- The answer of the last running-state query of a trace. -/
def lastRunningQuery (tr : List Event) : Option (Option Bool) :=
  (tr.filterMap Event.runningResult).getLast?

/-- The answer of the last power-state query of a trace. -/
def lastPowerStateQuery (tr : List Event) : Option (Option Nat) :=
  (tr.filterMap Event.powerStateResult).getLast?

/-- A polling query. -/
def Event.isPoll : Event → Bool
  | .isRunning _ _ => true
  | .powerState _ _ => true
  | _ => false

/-- A power-on call, whatever its result. -/
def Event.isPowerOn : Event → Bool
  | .powerOn _ _ _ => true
  | _ => false

/-- A clone call that succeeded. -/
def Event.isCloneOk : Event → Bool
  | .clone _ _ _ result => result.isSome
  | _ => false

/-- A file write that succeeded. -/
def Event.isWriteOk : Event → Bool
  | .writeFile _ _ ok => ok
  | _ => false

/-- The calls of vmStart before the power-on. -/
def startCalls (path : String) (vm : VM) (id : String) (buff : String)
    (config : CreateInstanceRequest) : List Event :=
  [.writeFile (filepath.Join [filepath.Dir path, "infrakit.spec"]) buff true,
   .setDisplayName vm id,
   .setMemorySize vm config.MemorySizeMBs,
   .setNumberVcpus vm config.NumCPUs]

/-! ## A small concrete world

One template `/lib/base.vmwarevm/base.vmx`, one running instance
`instance-5` under `/vms`. The world state is the power target and the
number of polls answered since it last changed: `IsRunning` follows the
target after one poll, `PowerState` after two. -/

/-- The host handle of the concrete world. -/
def demoHost : Host (Bool × Nat) where
  FindItems := fun s => (.ok ["/vms/instance-5/instance-5.vmx"], s)
  OpenVM := fun path s =>
    if path = "/lib/base.vmwarevm/base.vmx" then (.ok 1, s)
    else if path = "/vms/instance-5/instance-5.vmx" then (.ok 7, s)
    else (.error "cannot open", s)

/-- The concrete world; the sidecar write and the power-off can be made to
fail, and the content of the one sidecar file is `sidecar`. -/
def demoWorld (writeOk powerOffOk : Bool) (sidecar : Spec) : World (Bool × Nat) where
  Clone := fun _ _ _ s => (.ok 7, s)
  DisplayName := fun _ s => (.ok "instance-5", s)
  VmxPath := fun _ s => (.ok "/vms/instance-5/instance-5.vmx", s)
  SetDisplayName := fun _ _ s => s
  SetMemorySize := fun _ _ s => s
  SetNumberVcpus := fun _ _ s => s
  PowerOn := fun _ _ _ => (none, (true, 0))
  PowerOff := fun _ _ s => if powerOffOk then (none, (false, 0)) else (some "power off failed", s)
  IsRunning := fun _ s => (.ok (if 1 ≤ s.2 then s.1 else !s.1), (s.1, s.2 + 1))
  PowerState := fun _ s =>
    (.ok (if 2 ≤ s.2 then (if s.1 then 0x0008 else 0x0002) else 0x0004), (s.1, s.2 + 1))
  ToolsState := fun _ s => (.ok 0x0002, s)
  MkdirAll := fun _ s => s
  WriteFile := fun _ _ s => if writeOk then (none, s) else (some "disk full", s)
  ReadFile := fun path s =>
    if path = "/vms/instance-5/infrakit.spec" then (.ok "sidecar", s)
    else (.error "no such file", s)
  Now := fun _ => 5
  MarshalSpec := fun _ => .ok "sidecar"
  UnmarshalSpec := fun _ => .ok sidecar

/-- A host handle whose enumeration fails. -/
def demoHostDown : Host (Bool × Nat) where
  FindItems := fun s => (.error "host unreachable", s)
  OpenVM := fun _ s => (.error "host unreachable", s)

/-- The provisioner of the concrete world. -/
def demoProvisioner : Provisioner (Bool × Nat) :=
  { Host := some demoHost, VMLib := "/lib", VMDir := "/vms" }

/-- A request for the template `base` with nothing else set. -/
def demoSpec : Spec :=
  { Properties := some (.document (.obj [("VMX", .str "base")])), Tags := [("env", "test")] }

/-- A request for the template `base` that gives zero for the memory size
and for the CPU count. -/
def demoZeroSpec : Spec :=
  { Properties := some (.document (.obj
      [("VMX", .str "base"), ("MemorySizeMBs", .num "0"), ("NumCPUs", .num "0")])) }

/-! ## Path lemmas -/

namespace filepath

theorem splitSep_ne_nil (p : List Char) : splitSep p ≠ [] := by
  cases p with
  | nil => simp [splitSep]
  | cons c cs =>
    unfold splitSep
    split
    · simp
    · split <;> simp

theorem splitSep_of_not_mem (p : List Char) (h : '/' ∉ p) : splitSep p = [p] := by
  induction p with
  | nil => rfl
  | cons c cs ih =>
    have hc : c ≠ '/' := fun e => h (by simp [e])
    have hcs : '/' ∉ cs := fun e => h (by simp [e])
    simp [splitSep, hc, ih hcs]

theorem splitSep_append (a b : List Char) :
    splitSep (a ++ '/' :: b) = splitSep a ++ splitSep b := by
  induction a with
  | nil => simp [splitSep]
  | cons c cs ih =>
    by_cases hc : c = '/'
    · simp [splitSep, hc, ih]
    · have hne := splitSep_ne_nil cs
      cases hs : splitSep cs with
      | nil => exact absurd hs hne
      | cons h t => simp [splitSep, hc, ih, hs]

theorem joinSep_snoc (xs : List (List Char)) (a : List Char) (h : xs ≠ []) :
    joinSep (xs ++ [a]) = joinSep xs ++ '/' :: a := by
  induction xs with
  | nil => exact absurd rfl h
  | cons x rest ih =>
    cases rest with
    | nil => simp [joinSep]
    | cons y more =>
      have := ih (by simp)
      simp only [List.cons_append] at this ⊢
      simp [joinSep, this]

theorem cleanStep_push (rooted : Bool) (stack : List (List Char)) (elem : List Char)
    (h : 2 < elem.length) : cleanStep rooted stack elem = elem :: stack := by
  have h0 : elem ≠ [] := by intro e; simp [e] at h
  have h1 : elem ≠ ['.'] := by intro e; simp [e] at h
  have h2 : elem ≠ ['.', '.'] := by intro e; simp [e] at h
  simp [cleanStep, h0, h1, h2]

/-- Cleaning `l/a/b` when `l` is already clean, is neither `.` nor ends in a
separator, and `a`, `b` are ordinary names. -/
theorem cleanChars_append_two (l a b : List Char) (hclean : cleanChars l = l)
    (hne : l ≠ []) (hdot : l ≠ ['.']) (hend : l.getLast? ≠ some '/')
    (ha : '/' ∉ a) (hb : '/' ∉ b) (hla : 2 < a.length) (hlb : 2 < b.length) :
    cleanChars (l ++ '/' :: (a ++ '/' :: b)) = l ++ '/' :: (a ++ '/' :: b) := by
  have hroot : isRooted (l ++ '/' :: (a ++ '/' :: b)) = isRooted l := by
    cases l with
    | nil => exact absurd rfl hne
    | cons c cs => rfl
  have hsplit : splitSep (l ++ '/' :: (a ++ '/' :: b)) = splitSep l ++ [a, b] := by
    rw [splitSep_append, splitSep_append, splitSep_of_not_mem a ha, splitSep_of_not_mem b hb]
    rfl
  unfold cleanChars
  rw [hroot, hsplit, List.foldl_append]
  simp only [List.foldl_cons, List.foldl_nil]
  rw [cleanStep_push _ _ a hla, cleanStep_push _ _ b hlb]
  unfold cleanChars at hclean
  generalize (splitSep l).foldl (cleanStep (isRooted l)) [] = st at hclean ⊢
  unfold render at hclean ⊢
  simp only [List.reverse_cons, List.append_assoc, List.singleton_append] at hclean ⊢
  by_cases hst : st = []
  · subst hst
    cases hr : isRooted l
    · simp [hr, joinSep] at hclean
      exact absurd hclean.symm hdot
    · simp [hr, joinSep] at hclean
      rw [← hclean] at hend
      simp at hend
  · have hrev : st.reverse ≠ [] := by simpa using hst
    have e1 : joinSep (st.reverse ++ [a, b]) = joinSep st.reverse ++ '/' :: (a ++ '/' :: b) := by
      have : st.reverse ++ [a, b] = (st.reverse ++ [a]) ++ [b] := by simp
      rw [this, joinSep_snoc _ b (by simp), joinSep_snoc _ a hrev]
      simp
    have e2 : st.reverse ++ a :: [b] = st.reverse ++ [a, b] := rfl
    by_cases hout : (if isRooted l = true then ['/'] else []) ++ joinSep st.reverse = []
    · rw [if_pos hout] at hclean
      exact absurd hclean.symm hdot
    · rw [if_neg hout] at hclean
      rw [e1, ← List.append_assoc, hclean]
      simp [hne]

/-- Cleaning `a/b` for two ordinary names. -/
theorem cleanChars_two (a b : List Char) (ha : '/' ∉ a) (hb : '/' ∉ b)
    (hla : 2 < a.length) (hlb : 2 < b.length) :
    cleanChars (a ++ '/' :: b) = a ++ '/' :: b := by
  have hroot : isRooted (a ++ '/' :: b) = false := by
    cases a with
    | nil => simp at hla
    | cons c cs =>
      have hc : c ≠ '/' := fun e => ha (by simp [e])
      simp [isRooted, hc]
  have hsplit : splitSep (a ++ '/' :: b) = [a, b] := by
    rw [splitSep_append, splitSep_of_not_mem a ha, splitSep_of_not_mem b hb]
    rfl
  have hne : a ≠ [] := by intro e; simp [e] at hla
  unfold cleanChars
  rw [hroot, hsplit]
  simp only [List.foldl_cons, List.foldl_nil]
  rw [cleanStep_push _ _ a hla, cleanStep_push _ _ b hlb]
  simp [render, joinSep, hne]

end filepath

/-- The string form of the path layout: for a clean, non-empty library path
`L` other than `.` without a trailing separator and a reference `R` without a
separator, the result is `L/R.vmwarevm/R.vmx`. -/
theorem GetVMXFilePath_eq (L R : String) (hclean : filepath.Clean L = L)
    (hne : L ≠ "") (hdot : L ≠ ".") (hend : L.data.getLast? ≠ some '/')
    (hR : '/' ∉ R.data) :
    GetVMXFilePath L R = L ++ "/" ++ R ++ ".vmwarevm/" ++ R ++ ".vmx" := by
  have hA : (R ++ ".vmwarevm") ≠ "" := by
    intro e
    have := congrArg String.length e
    simp [String.length_append] at this
    exact absurd this.2 (by decide)
  have ha : '/' ∉ R.data ++ ['.', 'v', 'm', 'w', 'a', 'r', 'e', 'v', 'm'] := by
    intro h
    rcases List.mem_append.1 h with h | h
    · exact hR h
    · revert h; decide
  have hb : '/' ∉ R.data ++ ['.', 'v', 'm', 'x'] := by
    intro h
    rcases List.mem_append.1 h with h | h
    · exact hR h
    · revert h; decide
  have hla : 2 < (R.data ++ ['.', 'v', 'm', 'w', 'a', 'r', 'e', 'v', 'm']).length := by
    simp
  have hlb : 2 < (R.data ++ ['.', 'v', 'm', 'x']).length := by
    simp
  have hLd : L.data ≠ [] := by
    intro e
    apply hne
    exact String.ext e
  have hLdot : L.data ≠ ['.'] := by
    intro e
    apply hdot
    exact String.ext e
  have hLclean : filepath.cleanChars L.data = L.data := by
    have := congrArg String.data hclean
    simpa [filepath.Clean] using this
  have inner : filepath.Join [R ++ ".vmwarevm", R ++ ".vmx"]
      = ⟨(R.data ++ ['.', 'v', 'm', 'w', 'a', 'r', 'e', 'v', 'm'])
          ++ '/' :: (R.data ++ ['.', 'v', 'm', 'x'])⟩ := by
    simp only [filepath.Join, hA, if_false, filepath.joinStrings, filepath.Clean]
    apply String.ext
    have := filepath.cleanChars_two _ _ ha hb hla hlb
    simpa using this
  unfold GetVMXFilePath
  rw [inner]
  simp only [filepath.Join, hne, if_false, filepath.joinStrings, filepath.Clean]
  apply String.ext
  have := filepath.cleanChars_append_two L.data _ _ hLclean hLd hLdot hend ha hb hla hlb
  simpa using this

/-! ## Decoding lemmas -/

theorem decodeTags_ok_indep (ms : List (String × JValue)) (a b : GoMap) (ra : GoMap)
    (h : decodeTags ms a = .ok ra) : ∃ rb, decodeTags ms b = .ok rb := by
  induction ms generalizing a b ra with
  | nil => exact ⟨b, rfl⟩
  | cons m rest ih =>
    obtain ⟨k, v⟩ := m
    cases v with
    | str x => simp only [decodeTags] at h ⊢; exact ih _ _ _ h
    | null => simp only [decodeTags] at h ⊢; exact ih _ _ _ h
    | bool x => simp [decodeTags] at h
    | num x => simp [decodeTags] at h
    | arr x => simp [decodeTags] at h
    | obj x => simp [decodeTags] at h

/-- Whether a value is stored into a field without error does not depend on
the request it is stored into. -/
theorem setField_ok_indep (f : Field) (v : JValue) (a b ra : CreateInstanceRequest)
    (h : setField f v a = .ok ra) : ∃ rb, setField f v b = .ok rb := by
  cases f <;> cases v <;> simp only [setField] at h ⊢ <;>
    first
    | exact ⟨_, rfl⟩
    | (exact absurd h (by simp))
    | (split at h
       · rename_i hp; simp [hp]
       · simp at h)
    | skip
  -- Tags from an object
  rename_i members
  cases ha : decodeTags members a.Tags with
  | error e => simp [ha] at h
  | ok ma =>
    obtain ⟨mb, hb⟩ := decodeTags_ok_indep members a.Tags b.Tags ma ha
    simp [hb]

theorem decodeObject_ok_indep (ms : List (String × JValue)) (a b ra : CreateInstanceRequest)
    (h : decodeObject ms a = .ok ra) : ∃ rb, decodeObject ms b = .ok rb := by
  induction ms generalizing a b ra with
  | nil => exact ⟨b, rfl⟩
  | cons m rest ih =>
    obtain ⟨k, v⟩ := m
    simp only [decodeObject] at h ⊢
    cases hf : findField k with
    | none => simp only [hf] at h ⊢; exact ih _ _ _ h
    | some f =>
      simp only [hf] at h ⊢
      cases hs : setField f v a with
      | error e => simp [hs] at h
      | ok a1 =>
        simp only [hs] at h
        obtain ⟨b1, hb1⟩ := setField_ok_indep f v a b a1 hs
        simp only [hb1]
        exact ih _ _ _ h

/-- Whether a document decodes does not depend on the initial request. -/
theorem Unmarshal_ok_indep (data : RawMessage) (a b ra : CreateInstanceRequest)
    (h : Unmarshal data a = .ok ra) : ∃ rb, Unmarshal data b = .ok rb := by
  cases data with
  | malformed => simp [Unmarshal] at h
  | document v =>
    cases v with
    | null => exact ⟨b, rfl⟩
    | obj ms => exact decodeObject_ok_indep ms a b ra h
    | bool x => simp [Unmarshal] at h
    | num x => simp [Unmarshal] at h
    | str x => simp [Unmarshal] at h
    | arr x => simp [Unmarshal] at h

/-- Storing into one field leaves the memory size, the CPU count and the
GUI flag of the other fields as they are. -/
theorem setField_preserve (f : Field) (v : JValue) (r r1 : CreateInstanceRequest)
    (h : setField f v r = .ok r1) :
    (f ≠ .MemorySizeMBs → r1.MemorySizeMBs = r.MemorySizeMBs)
    ∧ (f ≠ .NumCPUs → r1.NumCPUs = r.NumCPUs)
    ∧ (f ≠ .LaunchGUI → r1.LaunchGUI = r.LaunchGUI) := by
  cases f <;> cases v <;> simp only [setField] at h <;>
    first
    | (cases h; simp)
    | (exact absurd h (by simp))
    | (split at h
       · cases h; simp
       · simp at h)

theorem decodeObject_preserve (ms : List (String × JValue)) (r r1 : CreateInstanceRequest)
    (h : decodeObject ms r = .ok r1) :
    ((∀ m ∈ ms, findField m.1 ≠ some .MemorySizeMBs) → r1.MemorySizeMBs = r.MemorySizeMBs)
    ∧ ((∀ m ∈ ms, findField m.1 ≠ some .NumCPUs) → r1.NumCPUs = r.NumCPUs)
    ∧ ((∀ m ∈ ms, findField m.1 ≠ some .LaunchGUI) → r1.LaunchGUI = r.LaunchGUI) := by
  induction ms generalizing r with
  | nil =>
    simp only [decodeObject, Except.ok.injEq] at h
    subst h
    simp
  | cons m rest ih =>
    obtain ⟨k, v⟩ := m
    simp only [decodeObject] at h
    cases hf : findField k with
    | none =>
      simp only [hf] at h
      obtain ⟨h1, h2, h3⟩ := ih r h
      exact ⟨fun hk => h1 (fun m hm => hk m (by simp [hm])),
        fun hk => h2 (fun m hm => hk m (by simp [hm])),
        fun hk => h3 (fun m hm => hk m (by simp [hm]))⟩
    | some f =>
      simp only [hf] at h
      cases hs : setField f v r with
      | error e => simp [hs] at h
      | ok r2 =>
        simp only [hs] at h
        obtain ⟨h1, h2, h3⟩ := ih r2 h
        obtain ⟨p1, p2, p3⟩ := setField_preserve f v r r2 hs
        refine ⟨fun hk => ?_, fun hk => ?_, fun hk => ?_⟩
        · rw [h1 (fun m hm => hk m (by simp [hm])), p1]
          intro e; subst e; exact hk (k, v) (by simp) hf
        · rw [h2 (fun m hm => hk m (by simp [hm])), p2]
          intro e; subst e; exact hk (k, v) (by simp) hf
        · rw [h3 (fun m hm => hk m (by simp [hm])), p3]
          intro e; subst e; exact hk (k, v) (by simp) hf

/-- A field that no key of the document names keeps its initial value. -/
theorem Unmarshal_preserve (data : RawMessage) (r r1 : CreateInstanceRequest)
    (h : Unmarshal data r = .ok r1) :
    (data.hasKey .MemorySizeMBs = false → r1.MemorySizeMBs = r.MemorySizeMBs)
    ∧ (data.hasKey .NumCPUs = false → r1.NumCPUs = r.NumCPUs)
    ∧ (data.hasKey .LaunchGUI = false → r1.LaunchGUI = r.LaunchGUI) := by
  cases data with
  | malformed => simp [Unmarshal] at h
  | document v =>
    cases v with
    | null =>
      simp only [Unmarshal, Except.ok.injEq] at h
      subst h
      simp
    | obj ms =>
      obtain ⟨h1, h2, h3⟩ := decodeObject_preserve ms r r1 h
      refine ⟨fun hk => h1 ?_, fun hk => h2 ?_, fun hk => h3 ?_⟩ <;>
        · intro m hm hf
          simp only [RawMessage.hasKey, List.any_eq_false, decide_eq_true_eq] at hk
          exact hk m hm hf
    | bool x => simp [Unmarshal] at h
    | num x => simp [Unmarshal] at h
    | str x => simp [Unmarshal] at h
    | arr x => simp [Unmarshal] at h

theorem decodeObject_append (a b : List (String × JValue)) (r r1 : CreateInstanceRequest)
    (h : decodeObject (a ++ b) r = .ok r1) :
    ∃ r0, decodeObject a r = .ok r0 ∧ decodeObject b r0 = .ok r1 := by
  induction a generalizing r with
  | nil => exact ⟨r, rfl, h⟩
  | cons m rest ih =>
    obtain ⟨k, v⟩ := m
    simp only [List.cons_append, decodeObject] at h ⊢
    cases hf : findField k with
    | none => simp only [hf] at h ⊢; exact ih r h
    | some f =>
      simp only [hf] at h ⊢
      cases hs : setField f v r with
      | error e => simp [hs] at h
      | ok r2 => simp only [hs] at h ⊢; exact ih r2 h

/-- The last number given for the memory size, or for the CPU count, is the
decoded value. -/
theorem decodeObject_explicit (pre post : List (String × JValue)) (k lit : String) (n : Nat)
    (r r1 : CreateInstanceRequest) (hn : parseUint lit = some n)
    (h : decodeObject (pre ++ (k, .num lit) :: post) r = .ok r1) :
    (findField k = some .MemorySizeMBs → (∀ m ∈ post, findField m.1 ≠ some .MemorySizeMBs) →
      r1.MemorySizeMBs = n)
    ∧ (findField k = some .NumCPUs → (∀ m ∈ post, findField m.1 ≠ some .NumCPUs) →
      r1.NumCPUs = n) := by
  obtain ⟨r0, _, h2⟩ := decodeObject_append pre _ r r1 h
  refine ⟨fun hk hpost => ?_, fun hk hpost => ?_⟩
  · simp only [decodeObject, hk, setField, hn] at h2
    rw [(decodeObject_preserve post _ r1 h2).1 hpost]
  · simp only [decodeObject, hk, setField, hn] at h2
    rw [(decodeObject_preserve post _ r1 h2).2.1 hpost]

/-! ## Polling lemmas -/

theorem pollRunning_trace {σ : Type} (w : World σ) (vm : VM) (stop : Bool → Bool)
    (fuel : Nat) (s : σ) :
    ∀ e ∈ (pollRunning w vm stop fuel s).trace, ∃ r, e = Event.isRunning vm r := by
  induction fuel generalizing s with
  | zero => simp [pollRunning]
  | succ n ih =>
    unfold pollRunning
    rcases hq : w.IsRunning vm s with ⟨res, s1⟩
    cases res with
    | error err => simp
    | ok running =>
      by_cases hs : stop running = true
      · simp [hs]
      · simp only [hs]
        intro e he
        simp only [Bool.false_eq_true, if_false, List.mem_cons] at he
        rcases he with he | he
        · exact ⟨_, he⟩
        · exact ih s1 e he

theorem pollRunning_left {σ : Type} (w : World σ) (vm : VM) (stop : Bool → Bool)
    (fuel : Nat) (s : σ) (h : (pollRunning w vm stop fuel s).out = .returned none) :
    ∃ l b, (pollRunning w vm stop fuel s).trace = l ++ [Event.isRunning vm (some b)]
      ∧ stop b = true ∧ ∀ e ∈ l, ∃ r, e = Event.isRunning vm r := by
  induction fuel generalizing s with
  | zero => simp [pollRunning] at h
  | succ n ih =>
    unfold pollRunning at h ⊢
    rcases hq : w.IsRunning vm s with ⟨res, s1⟩
    rw [hq] at h
    cases res with
    | error err => simp at h
    | ok running =>
      by_cases hs : stop running = true
      · exact ⟨[], running, by simp [hs], hs, by simp⟩
      · simp only [hs, Bool.false_eq_true, if_false] at h ⊢
        obtain ⟨l, b, ht, hb, hl⟩ := ih s1 h
        refine ⟨Event.isRunning vm (some running) :: l, b, by simp [ht], hb, ?_⟩
        intro e he
        rcases List.mem_cons.1 he with he | he
        · exact ⟨_, he⟩
        · exact hl e he

theorem pollPowerState_trace {σ : Type} (w : World σ) (vm : VM) (bit : Nat)
    (fuel : Nat) (s : σ) :
    ∀ e ∈ (pollPowerState w vm bit fuel s).trace, ∃ r, e = Event.powerState vm r := by
  induction fuel generalizing s with
  | zero => simp [pollPowerState]
  | succ n ih =>
    unfold pollPowerState
    rcases hq : w.PowerState vm s with ⟨res, s1⟩
    cases res with
    | error err => simp
    | ok state =>
      by_cases hs : state &&& bit > 0
      · simp [hs]
      · simp only [hs]
        intro e he
        simp only [if_false, List.mem_cons] at he
        rcases he with he | he
        · exact ⟨_, he⟩
        · exact ih s1 e he

theorem pollPowerState_left {σ : Type} (w : World σ) (vm : VM) (bit : Nat)
    (fuel : Nat) (s : σ) (h : (pollPowerState w vm bit fuel s).out = .returned none) :
    ∃ l m, (pollPowerState w vm bit fuel s).trace = l ++ [Event.powerState vm (some m)]
      ∧ m &&& bit > 0 ∧ ∀ e ∈ l, ∃ r, e = Event.powerState vm r := by
  induction fuel generalizing s with
  | zero => simp [pollPowerState] at h
  | succ n ih =>
    unfold pollPowerState at h ⊢
    rcases hq : w.PowerState vm s with ⟨res, s1⟩
    rw [hq] at h
    cases res with
    | error err => simp at h
    | ok state =>
      by_cases hs : state &&& bit > 0
      · exact ⟨[], state, by simp [hs], hs, by simp⟩
      · simp only [hs, if_false] at h ⊢
        obtain ⟨l, b, ht, hb, hl⟩ := ih s1 h
        refine ⟨Event.powerState vm (some state) :: l, b, by simp [ht], hb, ?_⟩
        intro e he
        rcases List.mem_cons.1 he with he | he
        · exact ⟨_, he⟩
        · exact hl e he

theorem pollBoth_trace {σ : Type} (w : World σ) (vm : VM) (stop : Bool → Bool) (bit : Nat)
    (fuel : Nat) (s : σ) :
    ∀ e ∈ (pollBoth w vm stop bit fuel s).trace, e.isPoll = true := by
  intro e he
  unfold pollBoth at he
  have h1 := pollRunning_trace w vm stop fuel s
  have h2 := pollPowerState_trace w vm bit fuel (pollRunning w vm stop fuel s).state
  have hr1 : e ∈ (pollRunning w vm stop fuel s).trace → e.isPoll = true := by
    intro h; obtain ⟨r, hr⟩ := h1 e h; simp [hr, Event.isPoll]
  have hr2 : e ∈ (pollPowerState w vm bit fuel (pollRunning w vm stop fuel s).state).trace →
      e.isPoll = true := by
    intro h; obtain ⟨r, hr⟩ := h2 e h; simp [hr, Event.isPoll]
  cases h0 : (pollRunning w vm stop fuel s).out with
  | returned r =>
    cases r with
    | none =>
      simp only [h0] at he
      rcases List.mem_append.1 he with he | he
      · exact hr1 he
      · exact hr2 he
    | some err => simp only [h0] at he; exact hr1 he
  | waiting => simp only [h0] at he; exact hr1 he
  | panicked => simp only [h0] at he; exact hr1 he

theorem pollBoth_left {σ : Type} (w : World σ) (vm : VM) (stop : Bool → Bool) (bit : Nat)
    (fuel : Nat) (s : σ) (h : (pollBoth w vm stop bit fuel s).out = .returned none) :
    ∃ l1 b l2 m, (pollBoth w vm stop bit fuel s).trace
        = l1 ++ [Event.isRunning vm (some b)] ++ (l2 ++ [Event.powerState vm (some m)])
      ∧ stop b = true ∧ m &&& bit > 0
      ∧ (∀ e ∈ l1, ∃ r, e = Event.isRunning vm r)
      ∧ (∀ e ∈ l2, ∃ r, e = Event.powerState vm r) := by
  unfold pollBoth at h ⊢
  cases h1 : (pollRunning w vm stop fuel s).out with
  | returned r =>
    cases r with
    | none =>
      simp only [h1] at h ⊢
      obtain ⟨l1, b, ht1, hb, hl1⟩ := pollRunning_left w vm stop fuel s h1
      obtain ⟨l2, m, ht2, hm, hl2⟩ := pollPowerState_left w vm bit fuel _ h
      exact ⟨l1, b, l2, m, by rw [ht1, ht2], hb, hm, hl1, hl2⟩
    | some err => simp [h1] at h
  | waiting => simp [h1] at h
  | panicked => simp [h1] at h

/-! ## The shape of a run of vmStart and of Provision -/

/-- Every run of vmStart is of one of five shapes: the marshalling fails,
the write fails, the properties do not decode, the power-on fails, or the
power-on succeeds and the polling starts. -/
theorem vmStart_shape {σ : Type} (w : World σ) (path : String) (vm : VM) (id : String)
    (spec : Spec) (fuel : Nat) (s : σ) :
    ((vmStart w path vm id spec fuel s).trace = []
      ∧ ∃ err, (vmStart w path vm id spec fuel s).out = .returned (some err))
    ∨ (∃ buff err, (vmStart w path vm id spec fuel s).trace
          = [.writeFile (filepath.Join [filepath.Dir path, "infrakit.spec"]) buff false]
        ∧ (vmStart w path vm id spec fuel s).out = .returned (some err))
    ∨ (∃ buff err, startConfig spec = .error err
        ∧ (vmStart w path vm id spec fuel s).trace
          = [.writeFile (filepath.Join [filepath.Dir path, "infrakit.spec"]) buff true,
             .setDisplayName vm id]
        ∧ (vmStart w path vm id spec fuel s).out = .returned (some err))
    ∨ (∃ buff config err, startConfig spec = .ok config
        ∧ (vmStart w path vm id spec fuel s).trace
          = startCalls path vm id buff config ++ [.powerOn vm (startMode config) false]
        ∧ (vmStart w path vm id spec fuel s).out = .returned (some err))
    ∨ (∃ buff config polls, startConfig spec = .ok config
        ∧ (vmStart w path vm id spec fuel s).trace
          = startCalls path vm id buff config ++ .powerOn vm (startMode config) true :: polls
        ∧ (∀ e ∈ polls, e.isPoll = true)
        ∧ ((vmStart w path vm id spec fuel s).out = .returned none →
            ∃ l1 l2 m, polls = l1 ++ [Event.isRunning vm (some true)]
                ++ (l2 ++ [Event.powerState vm (some m)])
              ∧ m &&& POWERSTATE_POWERED_ON > 0
              ∧ (∀ e ∈ l1, ∃ r, e = Event.isRunning vm r)
              ∧ (∀ e ∈ l2, ∃ r, e = Event.powerState vm r))) := by
  cases hm : w.MarshalSpec spec with
  | error err => exact Or.inl ⟨by simp [vmStart, hm], err, by simp [vmStart, hm]⟩
  | ok buff =>
    right
    rcases hw : w.WriteFile (filepath.Join [filepath.Dir path, "infrakit.spec"]) buff s
      with ⟨res, s1⟩
    cases res with
    | some err =>
      exact Or.inl ⟨buff, err, by simp [vmStart, hm, hw], by simp [vmStart, hm, hw]⟩
    | none =>
      right
      cases hc : startConfig spec with
      | error err =>
        exact Or.inl ⟨buff, err, rfl, by simp [vmStart, hm, hw, hc],
          by simp [vmStart, hm, hw, hc]⟩
      | ok config =>
        right
        rcases hp : w.PowerOn vm (startMode config)
          (w.SetNumberVcpus vm config.NumCPUs
            (w.SetMemorySize vm config.MemorySizeMBs (w.SetDisplayName vm id s1)))
          with ⟨res, s5⟩
        cases res with
        | some err =>
          exact Or.inl ⟨buff, config, err, rfl,
            by simp [vmStart, hm, hw, hc, hp, startCalls],
            by simp [vmStart, hm, hw, hc, hp]⟩
        | none =>
          right
          refine ⟨buff, config,
            (pollBoth w vm (fun running => running) POWERSTATE_POWERED_ON fuel s5).trace,
            rfl, by simp [vmStart, hm, hw, hc, hp, startCalls],
            pollBoth_trace _ _ _ _ _ _, ?_⟩
          intro h
          have h2 : (pollBoth w vm (fun running => running) POWERSTATE_POWERED_ON fuel s5).out
              = .returned none := by
            simpa [vmStart, hm, hw, hc, hp] using h
          obtain ⟨l1, b, l2, m, ht, hb, hm, hl1, hl2⟩ := pollBoth_left _ _ _ _ _ _ h2
          subst hb
          exact ⟨l1, l2, m, ht, hm, hl1, hl2⟩

/-- Every run of Provision is of one of four shapes: nothing is called, the
template does not open, the clone fails, or the clone succeeds and vmStart
runs on it. -/
theorem Provision_shape {σ : Type} (w : World σ) (p : Provisioner σ) (spec : Spec)
    (fuel : Nat) (s : σ) :
    ((Provision w p spec fuel s).trace = []
      ∧ ∀ id, (Provision w p spec fuel s).out ≠ .returned (id, none))
    ∨ (∃ props request, spec.Properties = some props ∧ Unmarshal props {} = .ok request ∧
        ((∃ err, (Provision w p spec fuel s).trace
            = [.openVM (GetVMXFilePath p.VMLib request.VMX) false]
          ∧ (Provision w p spec fuel s).out = .returned (none, some err))
        ∨ (∃ dir src dest err, (Provision w p spec fuel s).trace
            = [.openVM (GetVMXFilePath p.VMLib request.VMX) true, .mkdirAll dir,
               .clone src CLONETYPE_FULL dest none]
          ∧ (Provision w p spec fuel s).out = .returned (none, some err))
        ∨ (∃ dir src dest clone name s3, (Provision w p spec fuel s).trace
            = [.openVM (GetVMXFilePath p.VMLib request.VMX) true, .mkdirAll dir,
               .clone src CLONETYPE_FULL dest (some clone)]
              ++ (vmStart w dest clone name spec fuel s3).trace
          ∧ (Provision w p spec fuel s).out
            = (vmStart w dest clone name spec fuel s3).out.map (fun err => (some name, err))))) := by
  cases hprops : spec.Properties with
  | none => exact Or.inl ⟨by simp [Provision, hprops], by simp [Provision, hprops]⟩
  | some props =>
    cases hd : Unmarshal props {} with
    | error e => exact Or.inl ⟨by simp [Provision, hprops, hd], by simp [Provision, hprops, hd]⟩
    | ok request =>
      cases hh : p.Host with
      | none =>
        exact Or.inl ⟨by simp [Provision, hprops, hd, hh], by simp [Provision, hprops, hd, hh]⟩
      | some host =>
        right
        refine ⟨props, request, rfl, hd, ?_⟩
        rcases ho : host.OpenVM (GetVMXFilePath p.VMLib request.VMX) s with ⟨res, s1⟩
        cases res with
        | error err =>
          exact Or.inl ⟨err, by simp [Provision, hprops, hd, hh, ho],
            by simp [Provision, hprops, hd, hh, ho]⟩
        | ok src =>
          right
          rcases hc : w.Clone src CLONETYPE_FULL
              (filepath.Join [filepath.Join [p.VMDir, "instance-" ++ toString (w.Now s1)],
                "instance-" ++ toString (w.Now s1) ++ ".vmx"])
              (w.MkdirAll (filepath.Join [p.VMDir, "instance-" ++ toString (w.Now s1)]) s1)
            with ⟨res2, s3⟩
          cases res2 with
          | error err =>
            exact Or.inl ⟨filepath.Join [p.VMDir, "instance-" ++ toString (w.Now s1)], src,
              filepath.Join [filepath.Join [p.VMDir, "instance-" ++ toString (w.Now s1)],
                "instance-" ++ toString (w.Now s1) ++ ".vmx"], err,
              by simp [Provision, hprops, hd, hh, ho, hc],
              by simp [Provision, hprops, hd, hh, ho, hc]⟩
          | ok clone =>
            exact Or.inr ⟨filepath.Join [p.VMDir, "instance-" ++ toString (w.Now s1)], src,
              filepath.Join [filepath.Join [p.VMDir, "instance-" ++ toString (w.Now s1)],
                "instance-" ++ toString (w.Now s1) ++ ".vmx"], clone,
              "instance-" ++ toString (w.Now s1), s3,
              by simp [Provision, hprops, hd, hh, ho, hc],
              by simp [Provision, hprops, hd, hh, ho, hc]⟩

theorem filterMap_runningResult_powerStates (vm : VM) (l : List Event)
    (h : ∀ e ∈ l, ∃ r, e = Event.powerState vm r) :
    l.filterMap Event.runningResult = [] := by
  induction l with
  | nil => rfl
  | cons e rest ih =>
    obtain ⟨r, hr⟩ := h e (by simp)
    subst hr
    simpa [List.filterMap_cons, Event.runningResult] using ih (fun e he => h e (by simp [he]))

theorem filterMap_powerStateResult_runnings (vm : VM) (l : List Event)
    (h : ∀ e ∈ l, ∃ r, e = Event.isRunning vm r) :
    l.filterMap Event.powerStateResult = [] := by
  induction l with
  | nil => rfl
  | cons e rest ih =>
    obtain ⟨r, hr⟩ := h e (by simp)
    subst hr
    simpa [List.filterMap_cons, Event.powerStateResult] using ih (fun e he => h e (by simp [he]))

/-- A list that holds one power-on call splits at that call in one way only. -/
theorem powerOn_split_unique (L rest pre post : List Event) (po e : Event)
    (hL : ∀ x ∈ L, x.isPowerOn = false) (hrest : ∀ x ∈ rest, x.isPowerOn = false)
    (he : e.isPowerOn = true) (h : pre ++ e :: post = L ++ po :: rest) : pre = L := by
  induction L generalizing pre with
  | nil =>
    cases pre with
    | nil => rfl
    | cons y pre' =>
      simp only [List.cons_append, List.nil_append, List.cons.injEq] at h
      have : e ∈ rest := by rw [← h.2]; simp
      have := hrest e this
      rw [he] at this
      cases this
  | cons x L' ih =>
    cases pre with
    | nil =>
      simp only [List.nil_append, List.cons_append, List.cons.injEq] at h
      have := hL x (by simp)
      rw [← h.1, he] at this
      cases this
    | cons y pre' =>
      simp only [List.cons_append, List.cons.injEq] at h
      rw [h.1, ih pre' (fun z hz => hL z (by simp [hz])) h.2]

theorem isPowerOn_of_isPoll (e : Event) (h : e.isPoll = true) : e.isPowerOn = false := by
  cases e <;> simp [Event.isPoll, Event.isPowerOn] at h ⊢

/-- The configuration calls of a run of Provision carry the values of the
decoded configuration, and they are all made once the sidecar is written. -/
theorem Provision_config_events {σ : Type} (w : World σ) (p : Provisioner σ) (spec : Spec)
    (fuel : Nat) (s : σ) (config : CreateInstanceRequest) (hc : startConfig spec = .ok config) :
    (∀ vm n, Event.setMemorySize vm n ∈ (Provision w p spec fuel s).trace →
      n = config.MemorySizeMBs)
    ∧ (∀ vm n, Event.setNumberVcpus vm n ∈ (Provision w p spec fuel s).trace →
      n = config.NumCPUs)
    ∧ (∀ vm mode ok, Event.powerOn vm mode ok ∈ (Provision w p spec fuel s).trace →
      mode = startMode config)
    ∧ ((∃ path data, Event.writeFile path data true ∈ (Provision w p spec fuel s).trace) →
      ∃ src dest vm ok,
        Event.clone src CLONETYPE_FULL dest (some vm) ∈ (Provision w p spec fuel s).trace
        ∧ Event.setMemorySize vm config.MemorySizeMBs ∈ (Provision w p spec fuel s).trace
        ∧ Event.setNumberVcpus vm config.NumCPUs ∈ (Provision w p spec fuel s).trace
        ∧ Event.powerOn vm (startMode config) ok ∈ (Provision w p spec fuel s).trace) := by
  rcases Provision_shape w p spec fuel s with ⟨hnil, _⟩ | ⟨props, request, _, _, hcase⟩
  · rw [hnil]; simp
  · rcases hcase with ⟨err, ht, ho⟩ | ⟨_, _, _, err, ht, ho⟩
        | ⟨dir, src, dest, clone, name, s3, ht, ho⟩
    · rw [ht]; simp
    · rw [ht]; simp
    · rcases vmStart_shape w dest clone name spec fuel s3 with
        ⟨hst, e, he⟩ | ⟨buff, e, hst, he⟩ | ⟨buff, e, hce, hst, he⟩
          | ⟨buff, config2, e, hc2, hst, he⟩ | ⟨buff, config2, polls, hc2, hst, hpoll, _⟩
      · rw [ht, hst]; simp
      · rw [ht, hst]; simp
      · rw [hce] at hc; cases hc
      · rw [hc2] at hc
        cases hc
        rw [ht, hst]
        refine ⟨?_, ?_, ?_, ?_⟩
        · intro vm n h; simp [startCalls] at h; exact h.2
        · intro vm n h; simp [startCalls] at h; exact h.2
        · intro vm mode ok h; simp [startCalls] at h; exact h.2.1
        · intro _
          exact ⟨src, dest, clone, false, by simp, by simp [startCalls], by simp [startCalls],
            by simp⟩
      · rw [hc2] at hc
        cases hc
        rw [ht, hst]
        have hp1 : ∀ vm n, Event.setMemorySize vm n ∉ polls := by
          intro vm n h; have := hpoll _ h; simp [Event.isPoll] at this
        have hp2 : ∀ vm n, Event.setNumberVcpus vm n ∉ polls := by
          intro vm n h; have := hpoll _ h; simp [Event.isPoll] at this
        have hp3 : ∀ vm mode ok, Event.powerOn vm mode ok ∉ polls := by
          intro vm mode ok h; have := hpoll _ h; simp [Event.isPoll] at this
        refine ⟨?_, ?_, ?_, ?_⟩
        · intro vm n h; simp [startCalls, hp1] at h; exact h.2
        · intro vm n h; simp [startCalls, hp2] at h; exact h.2
        · intro vm mode ok h; simp [startCalls, hp3] at h; exact h.2.1
        · intro _
          exact ⟨src, dest, clone, true, by simp, by simp [startCalls], by simp [startCalls],
            by simp⟩

/-! ## Lemmas on Destroy -/

theorem findRunningLoop_destroy_no_match {σ : Type} (w : World σ) (host : Host σ)
    (id : String) (hno : ∀ vm s, (w.DisplayName vm s).1 ≠ .ok id)
    (urls : List String) (found : List VM) (acc : Unit) (s : σ) :
    (findRunningLoop host (destroyMatcher w id) urls found acc s).out.1 = found := by
  induction urls generalizing found acc s with
  | nil => rfl
  | cons url rest ih =>
    unfold findRunningLoop
    rcases ho : host.OpenVM url s with ⟨res, s1⟩
    cases res with
    | error e => exact ih found acc s1
    | ok vm =>
      simp only
      have hm : (destroyMatcher w id vm acc s1).out.1 = false := by
        unfold destroyMatcher
        rcases hd : w.DisplayName vm s1 with ⟨d, s2⟩
        cases d with
        | error e => rfl
        | ok d =>
          have := hno vm s1
          rw [hd] at this
          have hne : d ≠ id := fun e => this (by rw [e])
          simp [hne]
      rw [hm]
      exact ih _ _ _

theorem destroyLoop_returns {σ : Type} (w : World σ) (fuel : Nat)
    (hstop : ∀ vm s, ∃ r, (vmStop w vm fuel s).out = .returned r)
    (vms : List VM) (s : σ) : (destroyLoop w fuel vms s).out = .returned () := by
  induction vms generalizing s with
  | nil => rfl
  | cons vm rest ih =>
    obtain ⟨r, hr⟩ := hstop vm s
    simp only [destroyLoop, hr]
    exact ih _

theorem vmStop_returns_of_powerOff_fails {σ : Type} (w : World σ) (fuel : Nat)
    (hoff : ∀ vm mode s, (w.PowerOff vm mode s).1 ≠ none) (vm : VM) (s : σ) :
    ∃ r, (vmStop w vm fuel s).out = .returned r := by
  unfold vmStop
  simp only
  generalize hmode : (match (w.ToolsState vm s).1 with
    | .ok state => if state = TOOLSSTATE_RUNNING then VMPOWEROP_FROM_GUEST else VMPOWEROP_NORMAL
    | .error _ => VMPOWEROP_NORMAL) = mode
  rcases hp : w.PowerOff vm mode (w.ToolsState vm s).2 with ⟨res, s2⟩
  cases res with
  | some err => exact ⟨some err, rfl⟩
  | none =>
    have := hoff vm mode (w.ToolsState vm s).2
    rw [hp] at this
    exact absurd rfl this

theorem vmStop_returns_of_isRunning_fails {σ : Type} (w : World σ) (fuel : Nat)
    (hfuel : 0 < fuel) (hrun : ∀ vm s, ∃ e, (w.IsRunning vm s).1 = .error e) (vm : VM) (s : σ) :
    ∃ r, (vmStop w vm fuel s).out = .returned r := by
  unfold vmStop
  simp only
  generalize hmode : (match (w.ToolsState vm s).1 with
    | .ok state => if state = TOOLSSTATE_RUNNING then VMPOWEROP_FROM_GUEST else VMPOWEROP_NORMAL
    | .error _ => VMPOWEROP_NORMAL) = mode
  rcases hp : w.PowerOff vm mode (w.ToolsState vm s).2 with ⟨res, s2⟩
  cases res with
  | some err => exact ⟨some err, rfl⟩
  | none =>
    simp only
    rcases hv : w.VmxPath vm s2 with ⟨res2, s3⟩
    cases res2 with
    | error err => exact ⟨some err, rfl⟩
    | ok vmxPath =>
      simp only
      obtain ⟨n, rfl⟩ : ∃ n, fuel = n + 1 := ⟨fuel - 1, by omega⟩
      obtain ⟨e, he⟩ := hrun vm s3
      rcases hq : w.IsRunning vm s3 with ⟨q, s4⟩
      rw [hq] at he
      simp only at he
      subst he
      exact ⟨some e, by simp [pollBoth, pollRunning, hq]⟩

/-! ## Lemmas on DescribeInstances -/

theorem tagsMatch_of_mem (tags : GoMap) (side : List (String × String)) (k v : String)
    (hmem : (k, v) ∈ side) (hget : tags.get k = v) : tagsMatch tags side = true := by
  induction side with
  | nil => simp at hmem
  | cons e rest ih =>
    obtain ⟨k0, v0⟩ := e
    unfold tagsMatch
    by_cases h0 : tags.get k0 = v0
    · simp [h0]
    · simp only [h0, if_false]
      rcases List.mem_cons.1 hmem with h | h
      · simp only [Prod.mk.injEq] at h
        rw [h.1, h.2] at hget
        exact absurd hget h0
      · exact ih h

theorem GoMap.mem_of_lookup (m : GoMap) (k v : String) (h : m.lookup k = some v) :
    (k, v) ∈ m := by
  unfold GoMap.lookup at h
  cases hf : m.find? (fun e => e.1 == k) with
  | none => simp [hf] at h
  | some e =>
    simp only [hf, Option.some.injEq] at h
    have hm := List.mem_of_find?_eq_some hf
    have hp := List.find?_some hf
    simp only [beq_iff_eq] at hp
    obtain ⟨k0, v0⟩ := e
    simp only at h hp
    subst h hp
    exact hm

theorem GoMap.get_of_lookup (m : GoMap) (k v : String) (h : m.lookup k = some v) :
    m.get k = v := by
  simp [GoMap.get, h]

/-- The matcher only ever appends to the captured slice. -/
theorem describeMatcher_acc {σ : Type} (w : World σ) (tags : GoMap) (vm : VM)
    (result : List Description) (s : σ) :
    ∃ extra, (describeMatcher w tags vm result s).out.2 = result ++ extra := by
  unfold describeMatcher
  rcases w.DisplayName vm s with ⟨d, s1⟩
  cases d with
  | error e => exact ⟨[], by simp⟩
  | ok name =>
    simp only
    rcases w.VmxPath vm s1 with ⟨q, s2⟩
    cases q with
    | error e => exact ⟨[], by simp⟩
    | ok vmxpath =>
      simp only
      rcases w.ReadFile (filepath.Join [filepath.Dir vmxpath, "infrakit.spec"]) s2 with ⟨b, s3⟩
      cases b with
      | error e => exact ⟨[], by simp⟩
      | ok buff =>
        simp only
        cases w.UnmarshalSpec buff with
        | error e => exact ⟨[], by simp⟩
        | ok spec =>
          simp only
          generalize (if tags.length = 0 then true else tagsMatch tags spec.Tags) = b
          cases b
          · exact ⟨[], by simp⟩
          · exact ⟨_, rfl⟩

theorem findRunningLoop_describe_acc {σ : Type} (w : World σ) (host : Host σ) (tags : GoMap)
    (urls : List String) (found : List VM) (acc : List Description) (s : σ) :
    ∃ extra, (findRunningLoop host (describeMatcher w tags) urls found acc s).out.2
      = acc ++ extra := by
  induction urls generalizing found acc s with
  | nil => exact ⟨[], by simp [findRunningLoop]⟩
  | cons url rest ih =>
    unfold findRunningLoop
    rcases host.OpenVM url s with ⟨res, s1⟩
    cases res with
    | error e => exact ih found acc s1
    | ok vm =>
      simp only
      obtain ⟨e1, h1⟩ := describeMatcher_acc w tags vm acc s1
      obtain ⟨e2, h2⟩ := ih
        (if (describeMatcher w tags vm acc s1).out.1 = true then found ++ [vm] else found)
        (describeMatcher w tags vm acc s1).out.2 (describeMatcher w tags vm acc s1).state
      exact ⟨e1 ++ e2, by rw [h2, h1, List.append_assoc]⟩

/-- A VM that answers every query and whose sidecar shares a pair with the
filter is appended by the matcher. -/
theorem describeMatcher_match {σ : Type} (w : World σ) (tags : GoMap) (vm : VM)
    (result : List Description) (s : σ) (name vmxpath buff : String) (spec : Spec)
    (hname : ∀ s1, (w.DisplayName vm s1).1 = .ok name)
    (hpath : ∀ s1, (w.VmxPath vm s1).1 = .ok vmxpath)
    (hread : ∀ s1,
      (w.ReadFile (filepath.Join [filepath.Dir vmxpath, "infrakit.spec"]) s1).1 = .ok buff)
    (hparse : w.UnmarshalSpec buff = .ok spec)
    (hmatch : tagsMatch tags spec.Tags = true) :
    (describeMatcher w tags vm result s).out.2
      = result ++ [{ ID := name, LogicalID := spec.LogicalID, Tags := spec.Tags }] := by
  unfold describeMatcher
  rcases hd : w.DisplayName vm s with ⟨d, s1⟩
  have h1 := hname s
  rw [hd] at h1
  simp only at h1
  subst h1
  simp only
  rcases hv : w.VmxPath vm s1 with ⟨q, s2⟩
  have h2 := hpath s1
  rw [hv] at h2
  simp only at h2
  subst h2
  simp only
  rcases hr : w.ReadFile (filepath.Join [filepath.Dir vmxpath, "infrakit.spec"]) s2 with ⟨b, s3⟩
  have h3 := hread s2
  rw [hr] at h3
  simp only at h3
  subst h3
  simp [hparse, hmatch]

theorem findRunningLoop_describe_mem {σ : Type} (w : World σ) (host : Host σ) (tags : GoMap)
    (url : String) (vm : VM) (name vmxpath buff : String) (spec : Spec)
    (hopen : ∀ s1, (host.OpenVM url s1).1 = .ok vm)
    (hname : ∀ s1, (w.DisplayName vm s1).1 = .ok name)
    (hpath : ∀ s1, (w.VmxPath vm s1).1 = .ok vmxpath)
    (hread : ∀ s1,
      (w.ReadFile (filepath.Join [filepath.Dir vmxpath, "infrakit.spec"]) s1).1 = .ok buff)
    (hparse : w.UnmarshalSpec buff = .ok spec)
    (hmatch : tagsMatch tags spec.Tags = true)
    (urls : List String) (hu : url ∈ urls) (found : List VM) (acc : List Description) (s : σ) :
    { ID := name, LogicalID := spec.LogicalID, Tags := spec.Tags }
      ∈ (findRunningLoop host (describeMatcher w tags) urls found acc s).out.2 := by
  induction urls generalizing found acc s with
  | nil => simp at hu
  | cons u rest ih =>
    by_cases hhead : u = url
    · subst hhead
      unfold findRunningLoop
      rcases ho : host.OpenVM u s with ⟨res, s1⟩
      have h1 := hopen s
      rw [ho] at h1
      simp only at h1
      subst h1
      simp only
      obtain ⟨extra, he⟩ := findRunningLoop_describe_acc w host tags rest
        (if (describeMatcher w tags vm acc s1).out.1 = true then found ++ [vm] else found)
        (describeMatcher w tags vm acc s1).out.2 (describeMatcher w tags vm acc s1).state
      rw [he, describeMatcher_match w tags vm acc s1 name vmxpath buff spec hname hpath hread
        hparse hmatch]
      simp
    · have hrest : url ∈ rest := by
        rcases List.mem_cons.1 hu with h | h
        · exact absurd h.symm hhead
        · exact h
      unfold findRunningLoop
      rcases host.OpenVM u s with ⟨res, s1⟩
      cases res with
      | error e => exact ih hrest found acc s1
      | ok vm2 => exact ih hrest _ _ _

/-- Over a world whose read calls leave the state `s` as it is, the loop of
findRunning with the matcher of DescribeInstances and an empty filter
appends the descriptions of the URLs, in order. -/
theorem findRunningLoop_describe_all {σ : Type} (w : World σ) (host : Host σ) (s : σ)
    (hq1 : ∀ url, (host.OpenVM url s).2 = s) (hq2 : ∀ vm, (w.DisplayName vm s).2 = s)
    (hq3 : ∀ vm, (w.VmxPath vm s).2 = s) (hq4 : ∀ path, (w.ReadFile path s).2 = s)
    (urls : List String) (found : List VM) (acc : List Description) :
    (findRunningLoop host (describeMatcher w []) urls found acc s).out.2
        = acc ++ urls.filterMap (describeAt w host s)
    ∧ (findRunningLoop host (describeMatcher w []) urls found acc s).state = s := by
  induction urls generalizing found acc with
  | nil => simp [findRunningLoop]
  | cons url rest ih =>
    unfold findRunningLoop
    have e1 := hq1 url
    rcases ho : host.OpenVM url s with ⟨res, s1⟩
    rw [ho] at e1
    simp only at e1
    subst e1
    cases res with
    | error e =>
      simp only
      rw [(ih found acc).1, (ih found acc).2]
      simp [List.filterMap_cons, describeAt, ho]
    | ok vm =>
      simp only
      have e2 := hq2 vm
      have e3 := hq3 vm
      rcases hd : w.DisplayName vm s1 with ⟨d, s2⟩
      rw [hd] at e2
      simp only at e2
      subst e2
      rcases hv : w.VmxPath vm s2 with ⟨q, s3⟩
      rw [hv] at e3
      simp only at e3
      subst e3
      cases d with
      | error e =>
        have hm : describeMatcher w [] vm acc s3 = ⟨(false, acc), s3, [.displayName vm false]⟩ := by
          simp [describeMatcher, hd]
        rw [hm]
        simp only [Bool.false_eq_true, if_false]
        rw [(ih found acc).1, (ih found acc).2]
        simp [List.filterMap_cons, describeAt, ho, hd]
      | ok name =>
        cases q with
        | error e =>
          have hm : describeMatcher w [] vm acc s3
              = ⟨(false, acc), s3, [.displayName vm true, .vmxPath vm false]⟩ := by
            simp [describeMatcher, hd, hv]
          rw [hm]
          simp only [Bool.false_eq_true, if_false]
          rw [(ih found acc).1, (ih found acc).2]
          simp [List.filterMap_cons, describeAt, ho, hd, hv]
        | ok vmxpath =>
          have e4 := hq4 (filepath.Join [filepath.Dir vmxpath, "infrakit.spec"])
          rcases hr : w.ReadFile (filepath.Join [filepath.Dir vmxpath, "infrakit.spec"]) s3
            with ⟨b, s4⟩
          rw [hr] at e4
          simp only at e4
          subst e4
          cases b with
          | error e =>
            have hm : (describeMatcher w [] vm acc s4).out = (false, acc)
                ∧ (describeMatcher w [] vm acc s4).state = s4 := by
              simp [describeMatcher, hd, hv, hr]
            rw [hm.1, hm.2]
            simp only [Bool.false_eq_true, if_false]
            rw [(ih found acc).1, (ih found acc).2]
            simp [List.filterMap_cons, describeAt, ho, hd, hv, hr]
          | ok buff =>
            cases hp : w.UnmarshalSpec buff with
            | error e =>
              have hm : (describeMatcher w [] vm acc s4).out = (false, acc)
                  ∧ (describeMatcher w [] vm acc s4).state = s4 := by
                simp [describeMatcher, hd, hv, hr, hp]
              rw [hm.1, hm.2]
              simp only [Bool.false_eq_true, if_false]
              rw [(ih found acc).1, (ih found acc).2]
              simp [List.filterMap_cons, describeAt, ho, hd, hv, hr, hp]
            | ok spec =>
              have hm : (describeMatcher w [] vm acc s4).out
                    = (true, acc ++ [{ ID := name, LogicalID := spec.LogicalID,
                                       Tags := spec.Tags }])
                  ∧ (describeMatcher w [] vm acc s4).state = s4 := by
                simp [describeMatcher, hd, hv, hr, hp]
              rw [hm.1, hm.2]
              simp only [if_true]
              rw [(ih _ _).1, (ih _ _).2]
              simp [List.filterMap_cons, describeAt, ho, hd, hv, hr, hp]

/-! # Theorems -/

/-- C1: when Provision returns no error, its trace holds a successful full
clone, a successful write of `infrakit.spec` next to the cloned definition,
a power-on call that returned no error; the last running-state query
answered true and the last power-state query answered a mask with the
POWERED_ON bit set. -/
theorem Provision_success_powered_on {σ : Type} (w : World σ) (p : Provisioner σ)
    (spec : Spec) (fuel : Nat) (s : σ) (id : Option String)
    (h : (Provision w p spec fuel s).out = .returned (id, none)) :
    ∃ src dest data vm mode m,
      Event.clone src CLONETYPE_FULL dest (some vm) ∈ (Provision w p spec fuel s).trace
      ∧ Event.writeFile (filepath.Join [filepath.Dir dest, "infrakit.spec"]) data true
          ∈ (Provision w p spec fuel s).trace
      ∧ Event.powerOn vm mode true ∈ (Provision w p spec fuel s).trace
      ∧ lastRunningQuery (Provision w p spec fuel s).trace = some (some true)
      ∧ lastPowerStateQuery (Provision w p spec fuel s).trace = some (some m)
      ∧ m &&& POWERSTATE_POWERED_ON > 0 := by
  rcases Provision_shape w p spec fuel s with ⟨_, hne⟩ | ⟨props, request, _, _, hcase⟩
  · exact absurd h (hne id)
  · rcases hcase with ⟨err, _, ho⟩ | ⟨_, _, _, err, _, ho⟩ | ⟨dir, src, dest, clone, name, s3, ht, ho⟩
    · rw [ho] at h; simp at h
    · rw [ho] at h; simp at h
    · rw [ho] at h
      have hstart : (vmStart w dest clone name spec fuel s3).out = .returned none := by
        cases hv : (vmStart w dest clone name spec fuel s3).out with
        | returned e =>
          rw [hv] at h
          simp only [Outcome.map, Outcome.returned.injEq, Prod.mk.injEq] at h
          rw [h.2]
        | waiting => rw [hv] at h; simp [Outcome.map] at h
        | panicked => rw [hv] at h; simp [Outcome.map] at h
      rcases vmStart_shape w dest clone name spec fuel s3 with
        ⟨_, e, he⟩ | ⟨_, e, _, he⟩ | ⟨_, e, _, _, he⟩ | ⟨_, _, e, _, _, he⟩
          | ⟨buff, config, polls, _, hst, _, hpolls⟩
      · rw [he] at hstart; simp at hstart
      · rw [he] at hstart; simp at hstart
      · rw [he] at hstart; simp at hstart
      · rw [he] at hstart; simp at hstart
      · obtain ⟨l1, l2, m, hp, hm, hl1, hl2⟩ := hpolls hstart
        refine ⟨src, dest, buff, clone, startMode config, m, ?_, ?_, ?_, ?_, ?_, hm⟩
        · rw [ht]; simp
        · rw [ht, hst]; simp [startCalls]
        · rw [ht, hst]; simp
        · rw [ht, hst, hp]
          simp [lastRunningQuery, startCalls, List.filterMap_append, Event.runningResult,
            filterMap_runningResult_powerStates clone l2 hl2]
        · rw [ht, hst, hp]
          simp [lastPowerStateQuery, startCalls, List.filterMap_append, Event.powerStateResult,
            filterMap_powerStateResult_runnings clone l1 hl1]

/-- C1 on the concrete world: Provision succeeds there. -/
theorem Provision_success_powered_on_witness :
    (Provision (demoWorld true true {}) demoProvisioner demoSpec 5 (false, 0)).out
        = .returned (some "instance-5", none)
    ∧ ∃ src dest data vm mode m,
      Event.clone src CLONETYPE_FULL dest (some vm)
          ∈ (Provision (demoWorld true true {}) demoProvisioner demoSpec 5 (false, 0)).trace
      ∧ Event.writeFile (filepath.Join [filepath.Dir dest, "infrakit.spec"]) data true
          ∈ (Provision (demoWorld true true {}) demoProvisioner demoSpec 5 (false, 0)).trace
      ∧ Event.powerOn vm mode true
          ∈ (Provision (demoWorld true true {}) demoProvisioner demoSpec 5 (false, 0)).trace
      ∧ lastRunningQuery
          (Provision (demoWorld true true {}) demoProvisioner demoSpec 5 (false, 0)).trace
          = some (some true)
      ∧ lastPowerStateQuery
          (Provision (demoWorld true true {}) demoProvisioner demoSpec 5 (false, 0)).trace
          = some (some m)
      ∧ m &&& POWERSTATE_POWERED_ON > 0 :=
  ⟨by decide,
   Provision_success_powered_on (demoWorld true true {}) demoProvisioner demoSpec 5 (false, 0)
     (some "instance-5") (by decide)⟩


/-- C2: when the template opens, the clone succeeds and the write of the
sidecar file fails, Provision returns the write error and makes no power-on
call. Read off the trace: a failed write makes the trace exactly template
open, directory creation, successful clone, failed write. In every run, a
power-on call comes after a successful clone followed by a successful
sidecar write. -/
theorem Provision_write_failure_no_power_on {σ : Type} (w : World σ) (p : Provisioner σ)
    (spec : Spec) (fuel : Nat) (s : σ) :
    (∀ host props request src s1 clone s3 buff err s4,
      p.Host = some host → spec.Properties = some props → Unmarshal props {} = .ok request →
      host.OpenVM (GetVMXFilePath p.VMLib request.VMX) s = (.ok src, s1) →
      w.Clone src CLONETYPE_FULL
        (filepath.Join [filepath.Join [p.VMDir, "instance-" ++ toString (w.Now s1)],
          "instance-" ++ toString (w.Now s1) ++ ".vmx"])
        (w.MkdirAll (filepath.Join [p.VMDir, "instance-" ++ toString (w.Now s1)]) s1)
        = (.ok clone, s3) →
      w.MarshalSpec spec = .ok buff →
      w.WriteFile
        (filepath.Join [filepath.Dir
          (filepath.Join [filepath.Join [p.VMDir, "instance-" ++ toString (w.Now s1)],
            "instance-" ++ toString (w.Now s1) ++ ".vmx"]), "infrakit.spec"]) buff s3
        = (some err, s4) →
      (Provision w p spec fuel s).out
        = .returned (some ("instance-" ++ toString (w.Now s1)), some err)
      ∧ (∀ e ∈ (Provision w p spec fuel s).trace, e.isPowerOn = false)
      ∧ (Provision w p spec fuel s).state = s4) ∧
    ((∃ path data, Event.writeFile path data false ∈ (Provision w p spec fuel s).trace) →
      (∃ vmx dir src dest clone data, (Provision w p spec fuel s).trace
          = [.openVM vmx true, .mkdirAll dir, .clone src CLONETYPE_FULL dest (some clone),
             .writeFile (filepath.Join [filepath.Dir dest, "infrakit.spec"]) data false])
      ∧ (∃ id err, (Provision w p spec fuel s).out = .returned (id, some err))
      ∧ (∀ e ∈ (Provision w p spec fuel s).trace, e.isPowerOn = false)) ∧
    (∀ pre e post, (Provision w p spec fuel s).trace = pre ++ e :: post →
      e.isPowerOn = true →
      ∃ a x b y c, pre = a ++ x :: b ++ y :: c ∧ x.isCloneOk = true ∧ y.isWriteOk = true) := by
  refine ⟨?_, ?_⟩
  · intro host props request src s1 clone s3 buff err s4 hh hprops hdec ho hc hm hw
    simp [Provision, vmStart, hh, hprops, hdec, ho, hc, hm, hw, Outcome.map, Event.isPowerOn]
  rcases Provision_shape w p spec fuel s with ⟨hnil, _⟩ | ⟨props, request, _, _, hcase⟩
  · refine ⟨?_, ?_⟩
    · rintro ⟨path, data, hmem⟩
      rw [hnil] at hmem
      simp at hmem
    · intro pre e post ht
      rw [hnil] at ht
      simp at ht
  · rcases hcase with ⟨err, ht, ho⟩ | ⟨_, _, _, err, ht, ho⟩
        | ⟨dir, src, dest, clone, name, s3, ht, ho⟩
    · refine ⟨?_, ?_⟩
      · rintro ⟨path, data, hmem⟩
        rw [ht] at hmem
        simp at hmem
      · intro pre e post hd he
        rw [ht] at hd
        have hmem : e ∈ [Event.openVM (GetVMXFilePath p.VMLib request.VMX) false] := by
          rw [hd]; simp
        simp only [List.mem_singleton] at hmem
        subst hmem
        simp [Event.isPowerOn] at he
    · refine ⟨?_, ?_⟩
      · rintro ⟨path, data, hmem⟩
        rw [ht] at hmem
        simp at hmem
      · intro pre e post hd he
        rw [ht] at hd
        have hmem : e ∈ pre ++ e :: post := by simp
        rw [← hd] at hmem
        simp only [List.mem_cons, List.mem_singleton, List.not_mem_nil, or_false] at hmem
        rcases hmem with h | h | h <;> (subst h; simp [Event.isPowerOn] at he)
    · rcases vmStart_shape w dest clone name spec fuel s3 with
        ⟨hst, e, he⟩ | ⟨buff, e, hst, he⟩ | ⟨buff, e, _, hst, he⟩ | ⟨buff, config, e, _, hst, he⟩
          | ⟨buff, config, polls, _, hst, hpoll, _⟩
      · refine ⟨?_, ?_⟩
        · rintro ⟨path, data, hmem⟩
          rw [ht, hst] at hmem
          simp at hmem
        · intro pre e post hd hpo
          have hmem : e ∈ pre ++ e :: post := by simp
          rw [← hd, ht, hst] at hmem
          simp only [List.append_nil, List.mem_cons, List.mem_singleton, List.not_mem_nil,
            or_false] at hmem
          rcases hmem with h | h | h <;> (subst h; simp [Event.isPowerOn] at hpo)
      · refine ⟨?_, ?_⟩
        · intro _
          refine ⟨⟨_, dir, src, dest, clone, buff, by rw [ht, hst]; rfl⟩, ⟨some name, e, ?_⟩, ?_⟩
          · rw [ho, he]; rfl
          · intro x hx
            rw [ht, hst] at hx
            simp only [List.cons_append, List.nil_append, List.mem_cons, List.mem_singleton,
              List.not_mem_nil, or_false] at hx
            rcases hx with h | h | h | h <;> (subst h; rfl)
        · intro pre e post hd hpo
          have hmem : e ∈ pre ++ e :: post := by simp
          rw [← hd, ht, hst] at hmem
          simp only [List.cons_append, List.nil_append, List.mem_cons, List.mem_singleton,
            List.not_mem_nil, or_false] at hmem
          rcases hmem with h | h | h | h <;> (subst h; simp [Event.isPowerOn] at hpo)
      · refine ⟨?_, ?_⟩
        · rintro ⟨path, data, hmem⟩
          rw [ht, hst] at hmem
          simp at hmem
        · intro pre e post hd hpo
          have hmem : e ∈ pre ++ e :: post := by simp
          rw [← hd, ht, hst] at hmem
          simp only [List.cons_append, List.nil_append, List.mem_cons, List.mem_singleton,
            List.not_mem_nil, or_false] at hmem
          rcases hmem with h | h | h | h | h <;> (subst h; simp [Event.isPowerOn] at hpo)
      · refine ⟨?_, ?_⟩
        · rintro ⟨path, data, hmem⟩
          rw [ht, hst] at hmem
          simp [startCalls] at hmem
        · intro pre e post hd hpo
          rw [ht, hst, ← List.append_assoc] at hd
          have hpre := powerOn_split_unique
            ([.openVM (GetVMXFilePath p.VMLib request.VMX) true, .mkdirAll dir,
              .clone src CLONETYPE_FULL dest (some clone)] ++ startCalls dest clone name buff config)
            [] pre post _ e
            (by intro x hx; simp [startCalls] at hx; rcases hx with h | h | h | h | h | h | h <;>
                  (subst h; rfl))
            (by simp) hpo hd.symm
          exact ⟨[.openVM (GetVMXFilePath p.VMLib request.VMX) true, .mkdirAll dir],
            .clone src CLONETYPE_FULL dest (some clone), [],
            .writeFile (filepath.Join [filepath.Dir dest, "infrakit.spec"]) buff true,
            [.setDisplayName clone name, .setMemorySize clone config.MemorySizeMBs,
             .setNumberVcpus clone config.NumCPUs],
            by rw [hpre]; simp [startCalls], rfl, rfl⟩
      · refine ⟨?_, ?_⟩
        · rintro ⟨path, data, hmem⟩
          rw [ht, hst] at hmem
          simp only [startCalls, List.cons_append, List.nil_append, List.mem_cons,
            Event.writeFile.injEq, Bool.false_eq_true, and_false, false_or, reduceCtorEq] at hmem
          have := hpoll _ hmem
          simp [Event.isPoll] at this
        · intro pre e post hd hpo
          rw [ht, hst, ← List.append_assoc] at hd
          have hpre := powerOn_split_unique
            ([.openVM (GetVMXFilePath p.VMLib request.VMX) true, .mkdirAll dir,
              .clone src CLONETYPE_FULL dest (some clone)] ++ startCalls dest clone name buff config)
            polls pre post _ e
            (by intro x hx; simp [startCalls] at hx; rcases hx with h | h | h | h | h | h | h <;>
                  (subst h; rfl))
            (fun x hx => isPowerOn_of_isPoll x (hpoll x hx)) hpo hd.symm
          exact ⟨[.openVM (GetVMXFilePath p.VMLib request.VMX) true, .mkdirAll dir],
            .clone src CLONETYPE_FULL dest (some clone), [],
            .writeFile (filepath.Join [filepath.Dir dest, "infrakit.spec"]) buff true,
            [.setDisplayName clone name, .setMemorySize clone config.MemorySizeMBs,
             .setNumberVcpus clone config.NumCPUs],
            by rw [hpre]; simp [startCalls], rfl, rfl⟩

/-- C2 on the concrete world with a failing disk, and the order of calls on
the concrete world with a working disk. -/
theorem Provision_write_failure_no_power_on_witness :
    ((Provision (demoWorld false true {}) demoProvisioner demoSpec 5 (false, 0)).out
        = .returned (some ("instance-" ++ toString (5 : Int)), some "disk full")
      ∧ (∀ e ∈ (Provision (demoWorld false true {}) demoProvisioner demoSpec 5 (false, 0)).trace,
          e.isPowerOn = false)
      ∧ (Provision (demoWorld false true {}) demoProvisioner demoSpec 5 (false, 0)).state
          = (false, 0)) ∧
    ((∃ vmx dir src dest clone data,
        (Provision (demoWorld false true {}) demoProvisioner demoSpec 5 (false, 0)).trace
          = [.openVM vmx true, .mkdirAll dir, .clone src CLONETYPE_FULL dest (some clone),
             .writeFile (filepath.Join [filepath.Dir dest, "infrakit.spec"]) data false])
      ∧ (∃ id err, (Provision (demoWorld false true {}) demoProvisioner demoSpec 5 (false, 0)).out
          = .returned (id, some err))
      ∧ (∀ e ∈ (Provision (demoWorld false true {}) demoProvisioner demoSpec 5 (false, 0)).trace,
          e.isPowerOn = false)) ∧
    (∃ a x b y c,
      [Event.openVM "/lib/base.vmwarevm/base.vmx" true, .mkdirAll "/vms/instance-5",
       .clone 1 0 "/vms/instance-5/instance-5.vmx" (some 7),
       .writeFile "/vms/instance-5/infrakit.spec" "sidecar" true,
       .setDisplayName 7 "instance-5", .setMemorySize 7 512, .setNumberVcpus 7 1]
        = a ++ x :: b ++ y :: c ∧ x.isCloneOk = true ∧ y.isWriteOk = true) :=
  ⟨(Provision_write_failure_no_power_on (demoWorld false true {}) demoProvisioner demoSpec 5
      (false, 0)).1 demoHost (.document (.obj [("VMX", .str "base")])) { VMX := "base" } 1
      (false, 0) 7 (false, 0) "sidecar" "disk full" (false, 0) rfl rfl rfl rfl rfl rfl rfl,
   (Provision_write_failure_no_power_on (demoWorld false true {}) demoProvisioner demoSpec 5
      (false, 0)).2.1 ⟨"/vms/instance-5/infrakit.spec", "sidecar", by decide⟩,
   (Provision_write_failure_no_power_on (demoWorld true true {}) demoProvisioner demoSpec 5
      (false, 0)).2.2 _ (.powerOn 7 0 true)
      [.isRunning 7 (some false), .isRunning 7 (some true), .powerState 7 (some 8)]
      (by decide) rfl⟩

/-- C7: when the properties decode and name neither the memory size nor the
CPU count, every memory-size call of Provision carries 512 and every
CPU-count call carries 1, and both are made on the cloned VM once the
sidecar is written; when the GUI flag is not named either, the power-on is
in normal mode. -/
theorem Provision_defaults {σ : Type} (w : World σ) (p : Provisioner σ) (spec : Spec)
    (fuel : Nat) (s : σ) (props : RawMessage) (request : CreateInstanceRequest)
    (hprops : spec.Properties = some props) (hdec : Unmarshal props {} = .ok request)
    (hmem : props.hasKey .MemorySizeMBs = false) (hcpu : props.hasKey .NumCPUs = false) :
    (∀ vm n, Event.setMemorySize vm n ∈ (Provision w p spec fuel s).trace → n = 512)
    ∧ (∀ vm n, Event.setNumberVcpus vm n ∈ (Provision w p spec fuel s).trace → n = 1)
    ∧ (props.hasKey .LaunchGUI = false →
        ∀ vm mode ok, Event.powerOn vm mode ok ∈ (Provision w p spec fuel s).trace →
          mode = VMPOWEROP_NORMAL)
    ∧ ((∃ path data, Event.writeFile path data true ∈ (Provision w p spec fuel s).trace) →
        ∃ src dest vm,
          Event.clone src CLONETYPE_FULL dest (some vm) ∈ (Provision w p spec fuel s).trace
          ∧ Event.setMemorySize vm 512 ∈ (Provision w p spec fuel s).trace
          ∧ Event.setNumberVcpus vm 1 ∈ (Provision w p spec fuel s).trace
          ∧ (props.hasKey .LaunchGUI = false →
              ∃ ok, Event.powerOn vm VMPOWEROP_NORMAL ok ∈ (Provision w p spec fuel s).trace)) := by
  obtain ⟨config, hconfig⟩ := Unmarshal_ok_indep props {} DefaultCreateInstanceRequest request hdec
  obtain ⟨k1, k2, k3⟩ := Unmarshal_preserve props _ config hconfig
  have hc : startConfig spec = .ok config := by simp [startConfig, hprops, hconfig]
  have e1 : config.MemorySizeMBs = 512 := k1 hmem
  have e2 : config.NumCPUs = 1 := k2 hcpu
  have e3 : props.hasKey .LaunchGUI = false → startMode config = VMPOWEROP_NORMAL := by
    intro h
    have : config.LaunchGUI = false := k3 h
    simp [startMode, this]
  obtain ⟨c1, c2, c3, c4⟩ := Provision_config_events w p spec fuel s config hc
  refine ⟨fun vm n h => by rw [c1 vm n h, e1], fun vm n h => by rw [c2 vm n h, e2],
    fun hg vm mode ok h => by rw [c3 vm mode ok h, e3 hg], ?_⟩
  intro hreach
  obtain ⟨src, dest, vm, ok, q1, q2, q3, q4⟩ := c4 hreach
  refine ⟨src, dest, vm, q1, by rw [← e1]; exact q2, by rw [← e2]; exact q3, ?_⟩
  intro hg
  exact ⟨ok, by rw [← e3 hg]; exact q4⟩

/-- C7 on the concrete world: the template `base` with nothing else set. -/
theorem Provision_defaults_witness :
    Event.setMemorySize 7 512
        ∈ (Provision (demoWorld true true {}) demoProvisioner demoSpec 5 (false, 0)).trace
    ∧ (∃ src dest vm,
        Event.clone src CLONETYPE_FULL dest (some vm)
          ∈ (Provision (demoWorld true true {}) demoProvisioner demoSpec 5 (false, 0)).trace
        ∧ Event.setMemorySize vm 512
          ∈ (Provision (demoWorld true true {}) demoProvisioner demoSpec 5 (false, 0)).trace
        ∧ Event.setNumberVcpus vm 1
          ∈ (Provision (demoWorld true true {}) demoProvisioner demoSpec 5 (false, 0)).trace
        ∧ (RawMessage.hasKey (.document (.obj [("VMX", .str "base")])) .LaunchGUI = false →
            ∃ ok, Event.powerOn vm VMPOWEROP_NORMAL ok
              ∈ (Provision (demoWorld true true {}) demoProvisioner demoSpec 5 (false, 0)).trace)) :=
  ⟨by decide,
   (Provision_defaults (demoWorld true true {}) demoProvisioner demoSpec 5 (false, 0)
      (.document (.obj [("VMX", .str "base")])) { VMX := "base" } rfl rfl (by decide)
      (by decide)).2.2.2 ⟨"/vms/instance-5/infrakit.spec", "sidecar", by decide⟩⟩

/-- C8 as stated fails: with the properties
`{"VMX":"base","MemorySizeMBs":0,"NumCPUs":0}` Provision sets the memory size
of the clone to 0 and its CPU count to 0, and never sets 512 or 1. -/
theorem Provision_explicit_zero_counterexample :
    Event.setMemorySize 7 0
        ∈ (Provision (demoWorld true true {}) demoProvisioner demoZeroSpec 5 (false, 0)).trace
    ∧ Event.setNumberVcpus 7 0
        ∈ (Provision (demoWorld true true {}) demoProvisioner demoZeroSpec 5 (false, 0)).trace
    ∧ (∀ vm, Event.setMemorySize vm 512
        ∉ (Provision (demoWorld true true {}) demoProvisioner demoZeroSpec 5 (false, 0)).trace)
    ∧ (∀ vm, Event.setNumberVcpus vm 1
        ∉ (Provision (demoWorld true true {}) demoProvisioner demoZeroSpec 5 (false, 0)).trace) := by
  have ht : (Provision (demoWorld true true {}) demoProvisioner demoZeroSpec 5 (false, 0)).trace
      = [.openVM "/lib/base.vmwarevm/base.vmx" true, .mkdirAll "/vms/instance-5",
         .clone 1 0 "/vms/instance-5/instance-5.vmx" (some 7),
         .writeFile "/vms/instance-5/infrakit.spec" "sidecar" true,
         .setDisplayName 7 "instance-5", .setMemorySize 7 0, .setNumberVcpus 7 0,
         .powerOn 7 0 true, .isRunning 7 (some false), .isRunning 7 (some true),
         .powerState 7 (some 8)] := by decide
  rw [ht]
  simp

/-- C8 (as amended): when the last number the properties give for the memory
size (respectively the CPU count) is zero, every memory-size (respectively
CPU-count) call of Provision carries 0, and it is made on the cloned VM once
the sidecar is written. -/
theorem Provision_explicit_zero {σ : Type} (w : World σ) (p : Provisioner σ) (spec : Spec)
    (fuel : Nat) (s : σ) (pre post : List (String × JValue)) (k lit : String)
    (request : CreateInstanceRequest)
    (hprops : spec.Properties = some (.document (.obj (pre ++ (k, .num lit) :: post))))
    (hdec : Unmarshal (.document (.obj (pre ++ (k, .num lit) :: post))) {} = .ok request)
    (hzero : parseUint lit = some 0) :
    (findField k = some .MemorySizeMBs →
      (∀ m ∈ post, findField m.1 ≠ some .MemorySizeMBs) →
      (∀ vm n, Event.setMemorySize vm n ∈ (Provision w p spec fuel s).trace → n = 0)
      ∧ ((∃ path data, Event.writeFile path data true ∈ (Provision w p spec fuel s).trace) →
          ∃ src dest vm,
            Event.clone src CLONETYPE_FULL dest (some vm) ∈ (Provision w p spec fuel s).trace
            ∧ Event.setMemorySize vm 0 ∈ (Provision w p spec fuel s).trace))
    ∧ (findField k = some .NumCPUs →
      (∀ m ∈ post, findField m.1 ≠ some .NumCPUs) →
      (∀ vm n, Event.setNumberVcpus vm n ∈ (Provision w p spec fuel s).trace → n = 0)
      ∧ ((∃ path data, Event.writeFile path data true ∈ (Provision w p spec fuel s).trace) →
          ∃ src dest vm,
            Event.clone src CLONETYPE_FULL dest (some vm) ∈ (Provision w p spec fuel s).trace
            ∧ Event.setNumberVcpus vm 0 ∈ (Provision w p spec fuel s).trace)) := by
  obtain ⟨config, hconfig⟩ := Unmarshal_ok_indep _ {} DefaultCreateInstanceRequest request hdec
  have hc : startConfig spec = .ok config := by simp [startConfig, hprops, hconfig]
  obtain ⟨d1, d2⟩ := decodeObject_explicit pre post k lit 0 _ config hzero hconfig
  obtain ⟨c1, c2, _, c4⟩ := Provision_config_events w p spec fuel s config hc
  refine ⟨fun hk hpost => ?_, fun hk hpost => ?_⟩
  · have e := d1 hk hpost
    refine ⟨fun vm n h => by rw [c1 vm n h, e], fun hreach => ?_⟩
    obtain ⟨src, dest, vm, ok, q1, q2, _, _⟩ := c4 hreach
    exact ⟨src, dest, vm, q1, by rw [← e]; exact q2⟩
  · have e := d2 hk hpost
    refine ⟨fun vm n h => by rw [c2 vm n h, e], fun hreach => ?_⟩
    obtain ⟨src, dest, vm, ok, q1, _, q3, _⟩ := c4 hreach
    exact ⟨src, dest, vm, q1, by rw [← e]; exact q3⟩

/-- C8 (as amended) on the concrete world, for the memory size and for the
CPU count. -/
theorem Provision_explicit_zero_witness :
    (∃ src dest vm,
      Event.clone src CLONETYPE_FULL dest (some vm)
        ∈ (Provision (demoWorld true true {}) demoProvisioner demoZeroSpec 5 (false, 0)).trace
      ∧ Event.setMemorySize vm 0
        ∈ (Provision (demoWorld true true {}) demoProvisioner demoZeroSpec 5 (false, 0)).trace)
    ∧ (∃ src dest vm,
      Event.clone src CLONETYPE_FULL dest (some vm)
        ∈ (Provision (demoWorld true true {}) demoProvisioner demoZeroSpec 5 (false, 0)).trace
      ∧ Event.setNumberVcpus vm 0
        ∈ (Provision (demoWorld true true {}) demoProvisioner demoZeroSpec 5 (false, 0)).trace) :=
  ⟨((Provision_explicit_zero (demoWorld true true {}) demoProvisioner demoZeroSpec 5 (false, 0)
      [("VMX", .str "base")] [("NumCPUs", .num "0")] "MemorySizeMBs" "0"
      { VMX := "base" } rfl rfl (by decide)).1 (by decide) (by decide)).2
      ⟨"/vms/instance-5/infrakit.spec", "sidecar", by decide⟩,
   ((Provision_explicit_zero (demoWorld true true {}) demoProvisioner demoZeroSpec 5 (false, 0)
      [("VMX", .str "base"), ("MemorySizeMBs", .num "0")] [] "NumCPUs" "0"
      { VMX := "base" } rfl rfl (by decide)).2 (by decide) (by decide)).2
      ⟨"/vms/instance-5/infrakit.spec", "sidecar", by decide⟩⟩

/-- C10 as stated fails at the library path `.`: it is clean, non-empty and
has no trailing separator, yet the joined path drops it. -/
theorem GetVMXFilePath_layout_counterexample :
    filepath.Clean "." = "." ∧ "." ≠ "" ∧ ".".data.getLast? ≠ some '/'
    ∧ '/' ∉ "base".data
    ∧ GetVMXFilePath "." "base" = "base.vmwarevm/base.vmx"
    ∧ GetVMXFilePath "." "base" ≠ "." ++ "/" ++ "base" ++ ".vmwarevm/" ++ "base" ++ ".vmx" := by
  decide

/-- C10 (as amended): for a clean, non-empty template library path `L` other
than `.` that does not end in a separator and a template reference `R`
without a separator, GetVMXFilePath gives `L/R.vmwarevm/R.vmx`, and this is
the one path Provision opens on the host when the request names `R`. -/
theorem GetVMXFilePath_layout (L R : String) (hclean : filepath.Clean L = L)
    (hne : L ≠ "") (hdot : L ≠ ".") (hend : L.data.getLast? ≠ some '/')
    (hR : '/' ∉ R.data) :
    GetVMXFilePath L R = L ++ "/" ++ R ++ ".vmwarevm/" ++ R ++ ".vmx"
    ∧ ∀ (σ : Type) (w : World σ) (host : Host σ) (vmDir : String) (spec : Spec) (fuel : Nat)
        (s : σ) (props : RawMessage) (request : CreateInstanceRequest),
        spec.Properties = some props → Unmarshal props {} = .ok request → request.VMX = R →
        (∃ ok, (Provision w ⟨some host, L, vmDir⟩ spec fuel s).trace.head?
            = some (.openVM (L ++ "/" ++ R ++ ".vmwarevm/" ++ R ++ ".vmx") ok))
        ∧ (∀ path ok, Event.openVM path ok ∈ (Provision w ⟨some host, L, vmDir⟩ spec fuel s).trace →
            path = L ++ "/" ++ R ++ ".vmwarevm/" ++ R ++ ".vmx") := by
  have hpath := GetVMXFilePath_eq L R hclean hne hdot hend hR
  refine ⟨hpath, ?_⟩
  intro σ w host vmDir spec fuel s props request hprops hdec hvmx
  rw [← hpath]
  rcases Provision_shape w ⟨some host, L, vmDir⟩ spec fuel s with
    ⟨hnil, _⟩ | ⟨props2, request2, hp2, hd2, hcase⟩
  · exfalso
    rcases ho : host.OpenVM (GetVMXFilePath L request.VMX) s with ⟨res, s1⟩
    cases res with
    | error err => simp [Provision, hprops, hdec, ho] at hnil
    | ok src =>
      rcases hc : w.Clone src CLONETYPE_FULL
          (filepath.Join [filepath.Join [vmDir, "instance-" ++ toString (w.Now s1)],
            "instance-" ++ toString (w.Now s1) ++ ".vmx"])
          (w.MkdirAll (filepath.Join [vmDir, "instance-" ++ toString (w.Now s1)]) s1)
        with ⟨res2, s3⟩
      cases res2 <;> simp [Provision, hprops, hdec, ho, hc] at hnil
  · rw [hprops] at hp2
    cases hp2
    rw [hdec] at hd2
    cases hd2
    simp only at hcase
    rw [hvmx] at hcase
    rcases hcase with ⟨err, ht, _⟩ | ⟨_, _, _, err, ht, _⟩
        | ⟨dir, src, dest, clone, name, s3, ht, _⟩
    · rw [ht]; simp
    · rw [ht]; simp
    · rw [ht]
      refine ⟨⟨true, by simp⟩, ?_⟩
      intro path ok h
      simp only [List.cons_append, List.nil_append, List.mem_cons, Event.openVM.injEq,
        reduceCtorEq, false_or] at h
      rcases h with h | h
      · exact h.1
      · exfalso
        rcases vmStart_shape w dest clone name spec fuel s3 with
          ⟨hst, _⟩ | ⟨_, _, hst, _⟩ | ⟨_, _, _, hst, _⟩ | ⟨_, _, _, _, hst, _⟩
            | ⟨_, _, polls, _, hst, hpoll, _⟩
        · rw [hst] at h; simp at h
        · rw [hst] at h; simp at h
        · rw [hst] at h; simp at h
        · rw [hst] at h; simp [startCalls] at h
        · rw [hst] at h
          simp only [startCalls, List.cons_append, List.nil_append, List.mem_cons,
            reduceCtorEq, false_or] at h
          have := hpoll _ h
          simp [Event.isPoll] at this

/-- C10 (as amended) on the concrete world: library `/lib`, template `base`. -/
theorem GetVMXFilePath_layout_witness :
    GetVMXFilePath "/lib" "base" = "/lib" ++ "/" ++ "base" ++ ".vmwarevm/" ++ "base" ++ ".vmx"
    ∧ ∃ ok, (Provision (demoWorld true true {}) ⟨some demoHost, "/lib", "/vms"⟩ demoSpec 5
        (false, 0)).trace.head?
          = some (.openVM ("/lib" ++ "/" ++ "base" ++ ".vmwarevm/" ++ "base" ++ ".vmx") ok) :=
  ⟨(GetVMXFilePath_layout "/lib" "base" (by decide) (by decide) (by decide) (by decide)
      (by decide)).1,
   ((GetVMXFilePath_layout "/lib" "base" (by decide) (by decide) (by decide) (by decide)
      (by decide)).2 _ (demoWorld true true {}) demoHost "/vms" demoSpec 5 (false, 0)
      (.document (.obj [("VMX", .str "base")])) { VMX := "base" } rfl rfl rfl).1⟩

/-- C3: Destroy returns an error exactly when the provisioner has a host
whose enumeration of running VMs fails, and then it returns that error. With
a nil host it returns success without a call. When the enumeration succeeds,
Destroy returns success if no display name equals the id, if every stop
returns (with or without an error), if every power-off fails, and if every
running-state poll fails. -/
theorem Destroy_error_iff_enumeration_fails {σ : Type} (w : World σ) (p : Provisioner σ)
    (id : String) (fuel : Nat) (s : σ) :
    ((∃ err, (Destroy w p id fuel s).out = .returned (some err))
      ↔ (∃ host err, p.Host = some host ∧ (host.FindItems s).1 = .error err))
    ∧ (∀ host err, p.Host = some host → (host.FindItems s).1 = .error err →
        (Destroy w p id fuel s).out = .returned (some err))
    ∧ (p.Host = none →
        (Destroy w p id fuel s).out = .returned none ∧ (Destroy w p id fuel s).trace = [])
    ∧ (∀ host urls, p.Host = some host → (host.FindItems s).1 = .ok urls →
        ((∀ vm s1, (w.DisplayName vm s1).1 ≠ .ok id) →
          (Destroy w p id fuel s).out = .returned none)
        ∧ ((∀ vm s1, ∃ r, (vmStop w vm fuel s1).out = .returned r) →
          (Destroy w p id fuel s).out = .returned none)
        ∧ ((∀ vm mode s1, (w.PowerOff vm mode s1).1 ≠ none) →
          (Destroy w p id fuel s).out = .returned none)
        ∧ (0 < fuel → (∀ vm s1, ∃ e, (w.IsRunning vm s1).1 = .error e) →
          (Destroy w p id fuel s).out = .returned none)) := by
  have hfail : ∀ host err, p.Host = some host → (host.FindItems s).1 = .error err →
      (Destroy w p id fuel s).out = .returned (some err) := by
    intro host err hh hf
    rcases hfi : host.FindItems s with ⟨res, s1⟩
    rw [hfi] at hf
    simp only at hf
    subst hf
    simp [Destroy, findRunning, hh, hfi]
  have hnil : p.Host = none →
      (Destroy w p id fuel s).out = .returned none ∧ (Destroy w p id fuel s).trace = [] := by
    intro hh
    simp [Destroy, findRunning, hh]
  have hok : ∀ host urls, p.Host = some host → (host.FindItems s).1 = .ok urls →
      (Destroy w p id fuel s).out = .returned none
      ∨ ∃ vms s1, vms = (findRunningLoop host (destroyMatcher w id) urls [] ()
            (host.FindItems s).2).out.1
          ∧ (Destroy w p id fuel s).out = (destroyLoop w fuel vms s1).out.map (fun _ => none) := by
    intro host urls hh hf
    rcases hfi : host.FindItems s with ⟨res, s1⟩
    rw [hfi] at hf
    simp only at hf
    subst hf
    by_cases hz : (findRunningLoop host (destroyMatcher w id) urls [] () s1).out.1.length = 0
    · left
      simp [Destroy, findRunning, hh, hfi, hz]
    · right
      exact ⟨_, (findRunningLoop host (destroyMatcher w id) urls [] () s1).state, rfl,
        by simp [Destroy, findRunning, hh, hfi, hz]⟩
  have hstop : ∀ host urls, p.Host = some host → (host.FindItems s).1 = .ok urls →
      (∀ vm s1, ∃ r, (vmStop w vm fuel s1).out = .returned r) →
      (Destroy w p id fuel s).out = .returned none := by
    intro host urls hh hf hs
    rcases hok host urls hh hf with h | ⟨vms, s1, _, h⟩
    · exact h
    · rw [h, destroyLoop_returns w fuel hs]
      rfl
  refine ⟨⟨?_, ?_⟩, hfail, hnil, ?_⟩
  · rintro ⟨err, herr⟩
    cases hh : p.Host with
    | none =>
      rw [(hnil hh).1] at herr
      cases herr
    | some host =>
      rcases hfi : (host.FindItems s).1 with e | urls
      · exact ⟨host, e, rfl, hfi⟩
      · exfalso
        rcases hok host urls hh hfi with h | ⟨vms, s1, _, h⟩
        · rw [h] at herr; cases herr
        · rw [h] at herr
          cases hd : (destroyLoop w fuel vms s1).out <;> rw [hd] at herr <;>
            simp [Outcome.map] at herr
  · rintro ⟨host, err, hh, hf⟩
    exact ⟨err, hfail host err hh hf⟩
  · intro host urls hh hf
    refine ⟨?_, hstop host urls hh hf, ?_, ?_⟩
    · intro hno
      rcases hfi : host.FindItems s with ⟨res, s1⟩
      rw [hfi] at hf
      simp only at hf
      subst hf
      have := findRunningLoop_destroy_no_match w host id hno urls [] () s1
      simp [Destroy, findRunning, hh, hfi, this]
    · intro hoff
      exact hstop host urls hh hf (vmStop_returns_of_powerOff_fails w fuel hoff)
    · intro hfuel hrun
      exact hstop host urls hh hf (vmStop_returns_of_isRunning_fails w fuel hfuel hrun)

/-- C3 on the concrete world: a failing enumeration gives its error; an id
that no VM carries and a VM whose power-off fails both give success. -/
theorem Destroy_error_iff_enumeration_fails_witness :
    (Destroy (demoWorld true true {}) ⟨some demoHostDown, "/lib", "/vms"⟩ "instance-5" 5
        (true, 9)).out = .returned (some "host unreachable")
    ∧ (Destroy (demoWorld true true {}) demoProvisioner "instance-6" 5 (true, 9)).out
        = .returned none
    ∧ (Destroy (demoWorld true false {}) demoProvisioner "instance-5" 5 (true, 9)).out
        = .returned none
    ∧ Event.powerOff 7 VMPOWEROP_FROM_GUEST false
        ∈ (Destroy (demoWorld true false {}) demoProvisioner "instance-5" 5 (true, 9)).trace :=
  ⟨(Destroy_error_iff_enumeration_fails (demoWorld true true {})
      ⟨some demoHostDown, "/lib", "/vms"⟩ "instance-5" 5 (true, 9)).2.1
      demoHostDown "host unreachable" rfl rfl,
   ((Destroy_error_iff_enumeration_fails (demoWorld true true {}) demoProvisioner "instance-6" 5
      (true, 9)).2.2.2 demoHost ["/vms/instance-5/instance-5.vmx"] rfl rfl).1
      (fun vm s1 => by
        show Except.ok "instance-5" ≠ Except.ok "instance-6"
        intro h
        exact absurd (Except.ok.inj h) (by decide)),
   ((Destroy_error_iff_enumeration_fails (demoWorld true false {}) demoProvisioner "instance-5" 5
      (true, 9)).2.2.2 demoHost ["/vms/instance-5/instance-5.vmx"] rfl rfl).2.2.1
      (fun vm mode s1 => by
        show (some "power off failed" : Option String) ≠ none
        exact fun h => nomatch h),
   by decide⟩

/-- C4 at the failing input: the filter `{a:"1"}` and a sidecar with tags
`{c:""}` share no key/value pair, the filter is not empty, and
DescribeInstances still returns the VM, because the filter's entry for the
absent key `c` reads as the empty string. -/
theorem DescribeInstances_empty_value_match :
    (∀ e ∈ ([("a", "1")] : GoMap), e ∉ ([("c", "")] : GoMap))
    ∧ GoMap.lookup [("a", "1")] "c" = none
    ∧ (DescribeInstances (demoWorld true true { Tags := [("c", "")] }) demoProvisioner
        [("a", "1")] (true, 9)).out
      = ([{ ID := "instance-5", LogicalID := none, Tags := [("c", "")] }], none) := by
  decide

/-- C5: with a filter that maps some key to the value the sidecar has for
that key, DescribeInstances returns the description of every enumerated VM
that opens, answers its name and path, and has that sidecar, whatever the
other keys of the filter are. -/
theorem DescribeInstances_or_match {σ : Type} (w : World σ) (p : Provisioner σ)
    (host : Host σ) (tags : GoMap) (s : σ) (urls : List String) (url : String) (vm : VM)
    (name vmxpath buff : String) (spec : Spec) (k v : String)
    (hh : p.Host = some host) (hf : (host.FindItems s).1 = .ok urls) (hu : url ∈ urls)
    (hopen : ∀ s1, (host.OpenVM url s1).1 = .ok vm)
    (hname : ∀ s1, (w.DisplayName vm s1).1 = .ok name)
    (hpath : ∀ s1, (w.VmxPath vm s1).1 = .ok vmxpath)
    (hread : ∀ s1,
      (w.ReadFile (filepath.Join [filepath.Dir vmxpath, "infrakit.spec"]) s1).1 = .ok buff)
    (hparse : w.UnmarshalSpec buff = .ok spec)
    (hfilter : tags.lookup k = some v) (hside : spec.Tags.lookup k = some v) :
    { ID := name, LogicalID := spec.LogicalID, Tags := spec.Tags }
        ∈ (DescribeInstances w p tags s).out.1
    ∧ (DescribeInstances w p tags s).out.2 = none := by
  have hmatch : tagsMatch tags spec.Tags = true :=
    tagsMatch_of_mem tags spec.Tags k v (GoMap.mem_of_lookup _ k v hside)
      (GoMap.get_of_lookup _ k v hfilter)
  rcases hfi : host.FindItems s with ⟨res, s1⟩
  rw [hfi] at hf
  simp only at hf
  subst hf
  refine ⟨?_, by simp [DescribeInstances, findRunning, hh, hfi]⟩
  have := findRunningLoop_describe_mem w host tags url vm name vmxpath buff spec hopen hname
    hpath hread hparse hmatch urls hu [] [] s1
  simpa [DescribeInstances, findRunning, hh, hfi] using this

/-- C5 on the concrete world: sidecar tags `{a:"1", b:"2"}` are matched by
the filter `{a:"x", b:"2"}` through `b`. -/
theorem DescribeInstances_or_match_witness :
    { ID := "instance-5", LogicalID := none, Tags := [("a", "1"), ("b", "2")] }
        ∈ (DescribeInstances (demoWorld true true { Tags := [("a", "1"), ("b", "2")] })
            demoProvisioner [("a", "x"), ("b", "2")] (true, 9)).out.1
    ∧ (DescribeInstances (demoWorld true true { Tags := [("a", "1"), ("b", "2")] })
        demoProvisioner [("a", "x"), ("b", "2")] (true, 9)).out.2 = none :=
  DescribeInstances_or_match (demoWorld true true { Tags := [("a", "1"), ("b", "2")] })
    demoProvisioner demoHost [("a", "x"), ("b", "2")] (true, 9)
    ["/vms/instance-5/instance-5.vmx"] "/vms/instance-5/instance-5.vmx" 7
    "instance-5" "/vms/instance-5/instance-5.vmx" "sidecar" { Tags := [("a", "1"), ("b", "2")] }
    "b" "2" rfl rfl (by decide) (fun _ => rfl) (fun _ => rfl) (fun _ => rfl) (fun _ => rfl) rfl
    (by decide) (by decide)

/-- C6: with the empty filter, a host whose enumeration succeeds and a world
that the read calls leave as it is after the enumeration, DescribeInstances
returns no error and exactly the descriptions of the enumerated URLs, in
enumeration order: one for each URL whose VM opens, answers its display name
and definition path and has a sidecar that reads and parses, carrying the
display name and the sidecar's logical id and tags, and none for the others. -/
theorem DescribeInstances_empty_filter {σ : Type} (w : World σ) (p : Provisioner σ)
    (host : Host σ) (s s1 : σ) (urls : List String)
    (hh : p.Host = some host) (hf : host.FindItems s = (.ok urls, s1))
    (hq1 : ∀ url, (host.OpenVM url s1).2 = s1) (hq2 : ∀ vm, (w.DisplayName vm s1).2 = s1)
    (hq3 : ∀ vm, (w.VmxPath vm s1).2 = s1) (hq4 : ∀ path, (w.ReadFile path s1).2 = s1) :
    (DescribeInstances w p [] s).out = (urls.filterMap (describeAt w host s1), none) := by
  have := (findRunningLoop_describe_all w host s1 hq1 hq2 hq3 hq4 urls [] []).1
  simp [DescribeInstances, findRunning, hh, hf, this]

/-- C6 on the concrete world: the one running instance is described by its
display name and the logical id and tags of its sidecar. -/
theorem DescribeInstances_empty_filter_witness :
    (DescribeInstances (demoWorld true true { Tags := [("env", "test")], LogicalID := some "web-1" })
        demoProvisioner [] (true, 9)).out
      = ([{ ID := "instance-5", LogicalID := some "web-1", Tags := [("env", "test")] }], none) :=
  DescribeInstances_empty_filter
    (demoWorld true true { Tags := [("env", "test")], LogicalID := some "web-1" })
    demoProvisioner demoHost (true, 9) (true, 9) ["/vms/instance-5/instance-5.vmx"] rfl rfl
    (fun url => by
      show (if url = "/lib/base.vmwarevm/base.vmx" then ((Except.ok 1 : Except String VM), (true, 9))
        else if url = "/vms/instance-5/instance-5.vmx" then (.ok 7, (true, 9))
        else (.error "cannot open", (true, 9))).2 = (true, 9)
      split
      · rfl
      · split <;> rfl)
    (fun _ => rfl) (fun _ => rfl)
    (fun path => by
      show (if path = "/vms/instance-5/infrakit.spec" then
          ((Except.ok "sidecar" : Except String String), (true, 9))
        else (.error "no such file", (true, 9))).2 = (true, 9)
      split <;> rfl)

/-- C9: when the properties are absent or do not decode, Provision returns an
error and no identity, makes no call at all (empty trace, world unchanged);
a present document fails to decode in Provision exactly when Validate
returns an error on it, and a document that Validate accepts takes Provision
to the template open. -/
theorem Provision_rejects_undecodable {σ : Type} (w : World σ) (p : Provisioner σ)
    (spec : Spec) (fuel : Nat) (s : σ) :
    (spec.Properties = none →
      ∃ err, (Provision w p spec fuel s).out = .returned (none, some err)
        ∧ (Provision w p spec fuel s).trace = []
        ∧ (Provision w p spec fuel s).state = s) ∧
    (∀ props, spec.Properties = some props →
      ((∃ e, Unmarshal props {} = .error e) ↔ (∃ e, Validate props = some e)) ∧
      ((∃ e, Validate props = some e) →
        ∃ err, (Provision w p spec fuel s).out = .returned (none, some err)
          ∧ (Provision w p spec fuel s).trace = []
          ∧ (Provision w p spec fuel s).state = s) ∧
      (Validate props = none → ∀ host, p.Host = some host →
        ∃ path ok, (Provision w p spec fuel s).trace.head? = some (.openVM path ok))) := by
  have key : ∀ props, (∃ e, Unmarshal props {} = .error e) ↔ (∃ e, Validate props = some e) := by
    intro props
    unfold Validate
    constructor
    · rintro ⟨e, he⟩
      cases hd : Unmarshal props DefaultCreateInstanceRequest with
      | error e2 => exact ⟨e2, rfl⟩
      | ok r =>
        obtain ⟨rb, hb⟩ := Unmarshal_ok_indep props _ {} r hd
        rw [hb] at he
        cases he
    · rintro ⟨e, he⟩
      cases hd : Unmarshal props {} with
      | error e2 => exact ⟨e2, rfl⟩
      | ok r =>
        obtain ⟨rb, hb⟩ := Unmarshal_ok_indep props _ DefaultCreateInstanceRequest r hd
        rw [hb] at he
        cases he
  refine ⟨?_, ?_⟩
  · intro h
    exact ⟨"Properties must be set", by simp [Provision, h]⟩
  · intro props h
    refine ⟨key props, ?_, ?_⟩
    · intro hv
      obtain ⟨e, he⟩ := (key props).2 hv
      exact ⟨"Invalid input formatting: " ++ e, by simp [Provision, h, he]⟩
    · intro hv host hh
      cases hd : Unmarshal props {} with
      | error e =>
        obtain ⟨e2, he2⟩ := (key props).1 ⟨e, hd⟩
        rw [hv] at he2
        cases he2
      | ok request =>
        cases ho : host.OpenVM (GetVMXFilePath p.VMLib request.VMX) s with
        | mk res s1 =>
          cases res with
          | error err =>
            exact ⟨GetVMXFilePath p.VMLib request.VMX, false, by simp [Provision, h, hd, hh, ho]⟩
          | ok vm =>
            cases hc : w.Clone vm CLONETYPE_FULL
                (filepath.Join [filepath.Join [p.VMDir, "instance-" ++ toString (w.Now s1)],
                  "instance-" ++ toString (w.Now s1) ++ ".vmx"])
                (w.MkdirAll (filepath.Join [p.VMDir, "instance-" ++ toString (w.Now s1)]) s1) with
            | mk res2 s3 =>
              cases res2 with
              | error err =>
                exact ⟨GetVMXFilePath p.VMLib request.VMX, true,
                  by simp [Provision, h, hd, hh, ho, hc]⟩
              | ok clone =>
                exact ⟨GetVMXFilePath p.VMLib request.VMX, true,
                  by simp [Provision, h, hd, hh, ho, hc]⟩

/-- C9 on the concrete world: absent properties and a malformed document. -/
theorem Provision_rejects_undecodable_witness :
    (∃ err, (Provision (demoWorld true true {}) demoProvisioner {} 3 (false, 0)).out
        = .returned (none, some err)
      ∧ (Provision (demoWorld true true {}) demoProvisioner {} 3 (false, 0)).trace = []
      ∧ (Provision (demoWorld true true {}) demoProvisioner {} 3 (false, 0)).state = (false, 0)) ∧
    (∃ err, (Provision (demoWorld true true {}) demoProvisioner
          { Properties := some (.document (.obj [("NumCPUs", .str "two")])) } 3 (false, 0)).out
        = .returned (none, some err)
      ∧ (Provision (demoWorld true true {}) demoProvisioner
          { Properties := some (.document (.obj [("NumCPUs", .str "two")])) } 3 (false, 0)).trace = []
      ∧ (Provision (demoWorld true true {}) demoProvisioner
          { Properties := some (.document (.obj [("NumCPUs", .str "two")])) } 3 (false, 0)).state
          = (false, 0)) :=
  ⟨(Provision_rejects_undecodable (demoWorld true true {}) demoProvisioner {} 3 (false, 0)).1 rfl,
   ((Provision_rejects_undecodable (demoWorld true true {}) demoProvisioner
      { Properties := some (.document (.obj [("NumCPUs", .str "two")])) } 3 (false, 0)).2
      (.document (.obj [("NumCPUs", .str "two")])) rfl).2.1
      ⟨"json: cannot unmarshal value into Go struct field", by decide⟩⟩


end fusion
